import Mathlib

/-!
The board package of tictactoe.

A shallow embedding of `board/board.go`: positions, the flat index of a
position, board construction, `Put`, `IsWritable`, `Get` and `Marks.Equal`.

Modelling conventions.

* Go's `int` is the 64-bit two's-complement integer.  Values are carried in
  `Int`; every arithmetic operation of the source is followed by `wrap`, which
  reduces the exact result into `[-2^63, 2^63)` the way the machine does.
* A run-time fault of the source (index out of range, `make` with a length
  that is negative or too large for the runtime, division by zero) is the
  result `none`.
* `Data` holds the contents of the mark slice and the size.  `Put` writes
  through the slice of its receiver, so it is embedded as a function returning
  the board as it is after the call.  Sharing between `Data` values is made
  explicit in the `Heap` layer further down, where a `Data` value is a
  reference to a backing array.
* `make` faults as `runtime.makeslice` does: on a negative length, and when
  the bytes asked for, 8 for each cell, exceed `maxAlloc`, which is `2^48` on
  the 64-bit targets with 48 address bits (linux/amd64, linux/arm64).  An
  allocation that passes this check never fails for lack of memory.
* "A board with `len(Marks) = Size*Size`" is a `Data` whose number of cells is
  the exact product (`Data.Square`); as the length of a slice is an `int`, the
  number of cells is below `2^63` (`Data.LenIsInt`).  On such a board no
  arithmetic of `IsWritable` or `Put` wraps.  Statements that range over every
  size, with no board to bound it, meet the wrapping of `size*size`.
* Where a statement needs `Get` to allocate a copy of a given board, the board
  is one `make` can have allocated (`Data.Fits`), as every board of the
  program is.
-/

/-- Reduction of an exact integer into the range of a 64-bit signed `int`. -/
def wrap (z : Int) : Int := (z + 2 ^ 63) % 2 ^ 64 - 2 ^ 63

/-- Player is the ID of a player or the number of players (`type Player int`). -/
abbrev Player := Int

/-- Marks stores the players moves on the board, line by line (`type Marks []Player`). -/
abbrev Marks := List Player

/-- Position is a position on the board (`type Position [2]int`); `x` is `p[0]`, `y` is `p[1]`. -/
structure Position where
  x : Int
  y : Int
deriving DecidableEq, Repr

/-- Data is the board the game is played on. -/
structure Data where
  Marks : Marks
  Size : Int
deriving DecidableEq, Repr

/-- The slice read `m[i]`: faults when `i` is negative or not below `len(m)`. -/
def Marks.index (m : Marks) (i : Int) : Option Player :=
  if i < 0 then none else m[i.toNat]?

/-- The slice write `m[i] = v`: faults when `i` is negative or not below `len(m)`. -/
def Marks.assign (m : Marks) (i : Int) (v : Player) : Option Marks :=
  if i < 0 ∨ (m.length : Int) ≤ i then none else some (m.set i.toNat v)

/-- The largest number of bytes `runtime.makeslice` accepts, `maxAlloc` of the
Go runtime: `2^48` on the 64-bit targets with 48 address bits. -/
def maxAlloc : Int := 2 ^ 48

/-- The allocation `make(Marks, n)`.  As `runtime.makeslice` it faults with
"len out of range" on a negative length and when the size in bytes, 8 for each
`Player`, overflows or exceeds `maxAlloc`; else it returns `n` zero cells. -/
def makeMarks (n : Int) : Option Marks :=
  if n < 0 ∨ 8 * n > maxAlloc then none else some (List.replicate n.toNat 0)

/-- NewPosition creates a Position from an index in a Marks array and the size
of the board: `Position{index % size, index / size}`, with Go's truncated
division, which faults on a zero divisor. -/
def NewPosition (index : Int) (size : Int) : Option Position :=
  if size = 0 then none
  else some ⟨wrap (Int.tmod index size), wrap (Int.tdiv index size)⟩

/-- ToIndex returns the array index of a Position: `p[1]*s + p[0]`. -/
def Position.ToIndex (p : Position) (s : Int) : Int :=
  wrap (wrap (p.y * s) + p.x)

/-- NewData constructs Data with size s*s. -/
def NewData (size : Int) : Option Data :=
  match makeMarks (wrap (size * size)) with
  | none => none
  | some m => some ⟨m, size⟩

/-- The reason given for a position off the board:
`fmt.Sprintf("position out of range, board has size %vx%v", Size, Size)`. -/
def outOfRangeReason (size : Int) : String :=
  "position out of range, board has size " ++ toString size ++ "x" ++ toString size

/-- IsWritable checks if a position can be written in. -/
def Data.IsWritable (bo : Data) (p : Position) : Option (Bool × String) :=
  if p.x < 0 ∨ p.x ≥ bo.Size ∨ p.y < 0 ∨ p.y ≥ bo.Size then
    some (false, outOfRangeReason bo.Size)
  else
    match Marks.index bo.Marks (p.ToIndex bo.Size) with
    | none => none
    | some v => if v ≠ 0 then some (false, "position is not empty") else some (true, "")

/-- Put makes a mark for a player on the board.  The result is the board after
the call together with the returned pair `(ok, reason)`. -/
def Data.Put (bo : Data) (p : Position) (player : Player) : Option (Data × Bool × String) :=
  match bo.IsWritable p with
  | none => none
  | some (ok, reason) =>
    if !ok then some (bo, ok, reason)
    else
      match Marks.assign bo.Marks (p.ToIndex bo.Size) player with
      | none => none
      | some m => some (⟨m, bo.Size⟩, true, "")

/-- The loop of `Get`: `for i, v := range src { dst[i] = v }`, started at index `i`. -/
def copyLoop : Marks → Nat → Marks → Option Marks
  | [], _, dst => some dst
  | v :: rest, i, dst =>
    match Marks.assign dst (i : Int) v with
    | none => none
    | some dst1 => copyLoop rest (i + 1) dst1

/-- Get returns a copy of the board. -/
def Data.Get (bo : Data) : Option Data :=
  match makeMarks (wrap (bo.Size * bo.Size)) with
  | none => none
  | some fresh =>
    match copyLoop bo.Marks 0 fresh with
    | none => none
    | some m => some ⟨m, bo.Size⟩

/-- The loop of `Equal`: `for i := i; i < len(marks); i++`, with `n` iterations left. -/
def equalLoop (marks other : Marks) : Nat → Nat → Bool
  | 0, _ => true
  | n + 1, i => if marks[i]? != other[i]? then false else equalLoop marks other n (i + 1)

/-- Equal returns true when the Marks in the parameter board are equal to the
one of the receiver. -/
def Marks.Equal (marks other : Marks) : Bool :=
  if marks.length != other.length then false
  else equalLoop marks other marks.length 0

/-- The board has exactly `Size*Size` cells. -/
def Data.Square (b : Data) : Prop := (b.Marks.length : Int) = b.Size * b.Size

/-- The length of the mark slice is a value of Go's `int`, as `len` returns it. -/
def Data.LenIsInt (b : Data) : Prop := (b.Marks.length : Int) < 2 ^ 63

/-- The mark slice is one `make` can have allocated: its cells, 8 bytes each,
take at most `maxAlloc` bytes. -/
def Data.Fits (b : Data) : Prop := 8 * (b.Marks.length : Int) ≤ maxAlloc

/-- The position lies on a board of edge length `s`. -/
def Position.InRange (p : Position) (s : Int) : Prop :=
  0 ≤ p.x ∧ p.x < s ∧ 0 ≤ p.y ∧ p.y < s

instance (p : Position) (s : Int) : Decidable (p.InRange s) := by
  unfold Position.InRange; infer_instance

instance (b : Data) : Decidable b.Square := by
  unfold Data.Square; infer_instance

instance (b : Data) : Decidable b.LenIsInt := by
  unfold Data.LenIsInt; infer_instance

instance (b : Data) : Decidable b.Fits := by
  unfold Data.Fits; infer_instance

/-- The exact (unwrapped) row-major index of a position, as a list index. -/
def Position.cell (p : Position) (s : Int) : Nat := (p.y * s + p.x).toNat

/-- A sequence of `Put` calls on one board, each made on the board as the
previous call left it.  The result is the final board and the pairs
`(ok, reason)` the calls returned, in order. -/
def runPuts : Data → List (Position × Player) → Option (Data × List (Bool × String))
  | b, [] => some (b, [])
  | b, (p, player) :: rest =>
    match b.Put p player with
    | none => none
    | some (b1, ok, reason) =>
      match runPuts b1 rest with
      | none => none
      | some (b2, trace) => some (b2, (ok, reason) :: trace)

/-- The boards that `NewData` followed by any number of `Put` calls produces. -/
inductive Reachable : Data → Prop
  | new (size : Int) (b : Data) : NewData size = some b → Reachable b
  | put (b b1 : Data) (p : Position) (player : Player) (ok : Bool) (reason : String) :
      Reachable b → b.Put p player = some (b1, ok, reason) → Reachable b1

/-- A `Data` value as the program holds it: the slice header in `Marks` names a
backing array on the heap, and copies of the value share that array. -/
structure DataRef where
  Marks : Nat
  Size : Int
deriving DecidableEq, Repr

/-- The heap: the backing arrays allocated so far, in order of allocation. -/
abbrev Heap := List Marks

/-- The board a `Data` value denotes in a heap: the contents of its backing
array and its size. -/
def Heap.read (h : Heap) (r : DataRef) : Option Data :=
  match h[r.Marks]? with
  | none => none
  | some m => some ⟨m, r.Size⟩

/-- `Put` on the heap: the write goes to the backing array of the receiver. -/
def Heap.Put (h : Heap) (r : DataRef) (p : Position) (player : Player) :
    Option (Heap × Bool × String) :=
  match Heap.read h r with
  | none => none
  | some bo =>
    match bo.Put p player with
    | none => none
    | some (b1, ok, reason) => some (h.set r.Marks b1.Marks, ok, reason)

/-- `Get` on the heap: `make` allocates a new backing array, the loop fills it,
and the returned value refers to it. -/
def Heap.Get (h : Heap) (r : DataRef) : Option (Heap × DataRef) :=
  match Heap.read h r with
  | none => none
  | some bo =>
    match bo.Get with
    | none => none
    | some c => some (h ++ [c.Marks], ⟨h.length, c.Size⟩)

/-- A sequence of `Put` calls through one `Data` value on the heap; the result
is the final heap and the pairs `(ok, reason)` the calls returned. -/
def Heap.runPuts : Heap → DataRef → List (Position × Player) →
    Option (Heap × List (Bool × String))
  | h, _, [] => some (h, [])
  | h, r, (p, player) :: rest =>
    match Heap.Put h r p player with
    | none => none
    | some (h1, ok, reason) =>
      match Heap.runPuts h1 r rest with
      | none => none
      | some (h2, trace) => some (h2, (ok, reason) :: trace)

/-! The game package.  Of this package only the tests are among the sources;
the definitions below follow the specification and the fields the tests use. -/

/-- Modelled from the spec: the type `PlayerCounter` of the game package, whose
source file is not available.  It "holds `Next` (the identifier of the player
whose turn is current) and `Total` (number of distinct players)".  Both
fields are of type `Player`, that is `int`. -/
structure PlayerCounter where
  Next : Int
  Total : Int
deriving DecidableEq, Repr

/-- Modelled from the spec: the method `PlayerCounter.Inc`, whose source is not
available: it "advances `Next` cyclically: `Next = (Next % Total) + 1`".  The
remainder is Go's, truncated and faulting on a zero `Total`; the result is the
counter after the call. -/
def PlayerCounter.Inc (pc : PlayerCounter) : Option PlayerCounter :=
  if pc.Total = 0 then none
  else some ⟨wrap (wrap (Int.tmod pc.Next pc.Total) + 1), pc.Total⟩

/-- Exactly `i` calls of `Inc`, one after the other, on one counter. -/
def incTimes : Nat → PlayerCounter → Option PlayerCounter
  | 0, pc => some pc
  | i + 1, pc =>
    match incTimes i pc with
    | none => none
    | some pc1 => pc1.Inc

/-- Modelled from the spec: the actors of the actor package, whose source is not
available.  The tests build them as `Human{ID}` and `Computer{ID, Players}`. -/
inductive Actor
  | Human (ID : Int)
  | Computer (ID : Int) (Players : Int)
deriving DecidableEq, Repr

/-- Modelled from the spec: the type `Game` of the game package, whose source
file is not available.  It "owns one Board, one PlayerCounter, and an ordered
sequence of Actors"; the field names are the ones the tests read. -/
structure Game where
  Board : Data
  CurrentPlayer : PlayerCounter
  Players : List Actor
deriving DecidableEq, Repr

/-- Modelled from the spec: the errors of the game package, whose texts are not
available.  The three construction errors, the turn-mismatch error of `Move`,
and the failure of `Board.Put` that `Move` propagates with its reason. -/
inductive GameError
  | tooManyHumans
  | tooFewPlayers
  | boardTooSmall
  | wrongPlayer
  | board (reason : String)
deriving DecidableEq, Repr

/-- Modelled from the spec: the method `Game.Move(position,
expectedCurrentPlayer)`, whose source is not available.  "`expectedCurrentPlayer`
must equal `PlayerCounter.Next`; otherwise fails with a turn-mismatch error and
the board is unchanged.  Delegates to `Board.Put(position,
expectedCurrentPlayer)`; on board-level failure (...) propagates that failure
(...); the turn counter is NOT advanced on any failure path.  On success,
advances `PlayerCounter` to the next player and returns success."  The result
is the game after the call and the returned error, `none` for `nil`; the outer
`none` is a run-time fault of `Put` or `Inc`. -/
def Game.Move (g : Game) (p : Position) (player : Player) : Option (Game × Option GameError) :=
  if player ≠ g.CurrentPlayer.Next then some (g, some GameError.wrongPlayer)
  else
    match g.Board.Put p player with
    | none => none
    | some (b1, ok, reason) =>
      if !ok then some (⟨b1, g.CurrentPlayer, g.Players⟩, some (GameError.board reason))
      else
        match g.CurrentPlayer.Inc with
        | none => none
        | some pc => some (⟨b1, pc, g.Players⟩, none)

/-- The cell of the position exists and holds a mark other than 0. -/
def Data.Occupied (b : Data) (p : Position) : Prop :=
  ∃ v : Player, Marks.index b.Marks (p.ToIndex b.Size) = some v ∧ v ≠ 0

/-- The number of cells equal to 0. -/
def Marks.empties (m : Marks) : Nat := m.count 0

/-- The number of calls that returned `ok = true` among the returned pairs. -/
def successes (trace : List (Bool × String)) : Nat :=
  (trace.filter fun r => r.1).length
/-! ## Arithmetic of the flat index -/

theorem wrap_of_range (z : Int) (h1 : -2 ^ 63 ≤ z) (h2 : z < 2 ^ 63) : wrap z = z := by
  unfold wrap
  omega

theorem index_bounds (s x y : Int) (hx0 : 0 ≤ x) (hx : x < s) (hy0 : 0 ≤ y) (hy : y < s) :
    0 ≤ y * s ∧ y * s + x < s * s := by
  have hs : 0 ≤ s := by omega
  have h1 : 0 ≤ y * s := mul_nonneg hy0 hs
  have h2 : 0 ≤ (s - 1 - y) * s := mul_nonneg (by omega) hs
  constructor
  · exact h1
  · nlinarith

theorem ToIndex_exact (p : Position) (s : Int) (hp : p.InRange s) (hs : s * s < 2 ^ 63) :
    p.ToIndex s = p.y * s + p.x := by
  obtain ⟨hx0, hx, hy0, hy⟩ := hp
  obtain ⟨h1, h2⟩ := index_bounds s p.x p.y hx0 hx hy0 hy
  unfold Position.ToIndex
  rw [wrap_of_range (p.y * s) (by omega) (by omega)]
  exact wrap_of_range _ (by omega) (by omega)

theorem square_bound (b : Data) (hsq : b.Square) (hint : b.LenIsInt) : b.Size * b.Size < 2 ^ 63 := by
  unfold Data.Square at hsq
  unfold Data.LenIsInt at hint
  omega

theorem cell_lt_length (b : Data) (p : Position) (hsq : b.Square) (hp : p.InRange b.Size) :
    p.cell b.Size < b.Marks.length := by
  obtain ⟨hx0, hx, hy0, hy⟩ := hp
  obtain ⟨h1, h2⟩ := index_bounds b.Size p.x p.y hx0 hx hy0 hy
  unfold Data.Square at hsq
  unfold Position.cell
  omega

theorem index_in_range (b : Data) (p : Position) (hsq : b.Square) (hint : b.LenIsInt)
    (hp : p.InRange b.Size) :
    Marks.index b.Marks (p.ToIndex b.Size) = some (b.Marks.get ⟨p.cell b.Size, cell_lt_length b p hsq hp⟩) := by
  have hlt := cell_lt_length b p hsq hp
  rw [ToIndex_exact p b.Size hp (square_bound b hsq hint)]
  obtain ⟨hx0, hx, hy0, hy⟩ := hp
  obtain ⟨h1, h2⟩ := index_bounds b.Size p.x p.y hx0 hx hy0 hy
  unfold Marks.index
  rw [if_neg (by omega)]
  unfold Position.cell at hlt ⊢
  simp [List.getElem?_eq_getElem hlt]

theorem assign_in_range (b : Data) (p : Position) (v : Player) (hsq : b.Square) (hint : b.LenIsInt)
    (hp : p.InRange b.Size) :
    Marks.assign b.Marks (p.ToIndex b.Size) v = some (b.Marks.set (p.cell b.Size) v) := by
  have hlt := cell_lt_length b p hsq hp
  rw [ToIndex_exact p b.Size hp (square_bound b hsq hint)]
  obtain ⟨hx0, hx, hy0, hy⟩ := hp
  obtain ⟨h1, h2⟩ := index_bounds b.Size p.x p.y hx0 hx hy0 hy
  unfold Marks.assign
  unfold Position.cell at hlt ⊢
  rw [if_neg (by omega)]

/-! ## What `IsWritable` and `Put` return -/

theorem IsWritable_out (b : Data) (p : Position) (hp : ¬ p.InRange b.Size) :
    b.IsWritable p = some (false, outOfRangeReason b.Size) := by
  unfold Data.IsWritable
  rw [if_pos]
  unfold Position.InRange at hp
  omega

theorem IsWritable_in (b : Data) (p : Position) (hsq : b.Square) (hint : b.LenIsInt)
    (hp : p.InRange b.Size) :
    b.IsWritable p =
      some (if b.Marks[p.cell b.Size]? = some 0 then (true, "")
            else (false, "position is not empty")) := by
  have hlt := cell_lt_length b p hsq hp
  have hidx := index_in_range b p hsq hint hp
  unfold Data.IsWritable
  rw [if_neg (by unfold Position.InRange at hp; omega), hidx]
  simp only [List.getElem?_eq_getElem hlt, List.get_eq_getElem]
  by_cases hv : b.Marks[p.cell b.Size] = 0
  · simp [hv]
  · simp [hv]

theorem Put_out (b : Data) (p : Position) (player : Player) (hp : ¬ p.InRange b.Size) :
    b.Put p player = some (b, false, outOfRangeReason b.Size) := by
  unfold Data.Put
  rw [IsWritable_out b p hp]
  rfl

theorem Put_in (b : Data) (p : Position) (player : Player) (hsq : b.Square) (hint : b.LenIsInt)
    (hp : p.InRange b.Size) :
    b.Put p player =
      some (if b.Marks[p.cell b.Size]? = some 0
            then (⟨b.Marks.set (p.cell b.Size) player, b.Size⟩, true, "")
            else (b, false, "position is not empty")) := by
  unfold Data.Put
  rw [IsWritable_in b p hsq hint hp]
  by_cases hv : b.Marks[p.cell b.Size]? = some 0
  · simp only [hv, if_true]
    rw [assign_in_range b p player hsq hint hp]
    rfl
  · simp only [hv, if_false]
    rfl

/-! ## The reason strings -/

theorem outOfRangeReason_ne_empty (s : Int) : outOfRangeReason s ≠ "" := by
  intro h
  have h1 := congrArg String.length h
  simp only [outOfRangeReason, String.length_append] at h1
  have h2 : "x".length = 1 := by decide
  have h3 : "".length = 0 := by decide
  omega

theorem outOfRangeReason_ne_notEmpty (s : Int) : outOfRangeReason s ≠ "position is not empty" := by
  intro h
  have h1 := congrArg String.data h
  simp [outOfRangeReason, String.data_append] at h1

/-! ## Shape of the board under `Put` -/

theorem assign_length (m m1 : Marks) (i : Int) (v : Player) (h : Marks.assign m i v = some m1) :
    m1.length = m.length := by
  unfold Marks.assign at h
  split at h
  · cases h
  · cases h
    exact List.length_set _ _ _

theorem Put_shape (b b1 : Data) (p : Position) (player : Player) (ok : Bool) (r : String)
    (h : b.Put p player = some (b1, ok, r)) :
    b1.Size = b.Size ∧ b1.Marks.length = b.Marks.length := by
  unfold Data.Put at h
  split at h
  · cases h
  · rename_i ok0 reason0 hw
    split at h
    · cases h
      exact ⟨rfl, rfl⟩
    · split at h
      · cases h
      · rename_i m hm
        cases h
        exact ⟨rfl, assign_length _ _ _ _ hm⟩

theorem Put_square (b b1 : Data) (p : Position) (player : Player) (ok : Bool) (r : String)
    (hsq : b.Square) (hint : b.LenIsInt) (h : b.Put p player = some (b1, ok, r)) :
    b1.Square ∧ b1.LenIsInt := by
  obtain ⟨h1, h2⟩ := Put_shape b b1 p player ok r h
  unfold Data.Square Data.LenIsInt at *
  rw [h1, h2]
  exact ⟨hsq, hint⟩

theorem Put_total (b : Data) (p : Position) (player : Player) (hsq : b.Square)
    (hint : b.LenIsInt) : ∃ res, b.Put p player = some res := by
  by_cases hp : p.InRange b.Size
  · exact ⟨_, Put_in b p player hsq hint hp⟩
  · exact ⟨_, Put_out b p player hp⟩

theorem Put_keeps_marked (b b1 : Data) (q : Position) (other : Player) (ok : Bool) (r : String)
    (hsq : b.Square) (hint : b.LenIsInt) (i : Nat) (v : Player) (hv : v ≠ 0)
    (hi : b.Marks[i]? = some v) (h : b.Put q other = some (b1, ok, r)) :
    b1.Marks[i]? = some v := by
  by_cases hq : q.InRange b.Size
  · rw [Put_in b q other hsq hint hq] at h
    by_cases hc : b.Marks[q.cell b.Size]? = some 0
    · rw [if_pos hc] at h
      cases h
      have hne : q.cell b.Size ≠ i := by
        intro he
        rw [he, hi] at hc
        exact hv (Option.some.inj hc)
      simp only
      rw [List.getElem?_set_ne hne]
      exact hi
    · rw [if_neg hc] at h
      cases h
      exact hi
  · rw [Put_out b q other hq] at h
    cases h
    exact hi

theorem runPuts_total (moves : List (Position × Player)) :
    ∀ (b : Data), b.Square → b.LenIsInt →
      ∃ (b2 : Data) (tr : List (Bool × String)),
        runPuts b moves = some (b2, tr) ∧ b2.Square ∧ b2.LenIsInt := by
  induction moves with
  | nil =>
    intro b hsq hint
    exact ⟨b, [], rfl, hsq, hint⟩
  | cons mv rest ih =>
    intro b hsq hint
    obtain ⟨q, other⟩ := mv
    obtain ⟨⟨b1, ok, r⟩, hput⟩ := Put_total b q other hsq hint
    obtain ⟨hsq1, hint1⟩ := Put_square b b1 q other ok r hsq hint hput
    obtain ⟨b2, tr, hrun, h2⟩ := ih b1 hsq1 hint1
    refine ⟨b2, (ok, r) :: tr, ?_, h2⟩
    simp only [runPuts, hput, hrun]

theorem runPuts_keeps_marked (moves : List (Position × Player)) :
    ∀ (b : Data), b.Square → b.LenIsInt → ∀ (i : Nat) (v : Player), v ≠ 0 →
      b.Marks[i]? = some v →
      ∃ (b2 : Data) (tr : List (Bool × String)),
        runPuts b moves = some (b2, tr) ∧ b2.Marks[i]? = some v := by
  induction moves with
  | nil =>
    intro b _ _ i v _ hi
    exact ⟨b, [], rfl, hi⟩
  | cons mv rest ih =>
    intro b hsq hint i v hv hi
    obtain ⟨q, other⟩ := mv
    obtain ⟨⟨b1, ok, r⟩, hput⟩ := Put_total b q other hsq hint
    obtain ⟨hsq1, hint1⟩ := Put_square b b1 q other ok r hsq hint hput
    have hi1 := Put_keeps_marked b b1 q other ok r hsq hint i v hv hi hput
    obtain ⟨b2, tr, hrun, hb2⟩ := ih b1 hsq1 hint1 i v hv hi1
    refine ⟨b2, (ok, r) :: tr, ?_, hb2⟩
    simp only [runPuts, hput, hrun]

/-! ## `Get` and `Equal` -/

theorem copyLoop_append (src : Marks) :
    ∀ (pre rem : Marks), src.length ≤ rem.length →
      copyLoop src pre.length (pre ++ rem) = some (pre ++ src ++ rem.drop src.length) := by
  induction src with
  | nil =>
    intro pre rem _
    simp [copyLoop]
  | cons v rest ih =>
    intro pre rem hlen
    cases rem with
    | nil => simp at hlen
    | cons r rem1 =>
      have hassign : Marks.assign (pre ++ r :: rem1) (pre.length : Int) v
          = some ((pre ++ [v]) ++ rem1) := by
        unfold Marks.assign
        rw [if_neg (by simp)]
        simp
      have hrest : rest.length ≤ rem1.length := by simpa using hlen
      have h := ih (pre ++ [v]) rem1 hrest
      simp only [List.length_append, List.length_singleton] at h
      simp only [copyLoop, hassign, h]
      simp

theorem maxAlloc_eq : maxAlloc = 2 ^ 48 := rfl

theorem makeMarks_length (n : Int) (m : Marks) (h : makeMarks n = some m) :
    0 ≤ n ∧ m = List.replicate n.toNat 0 ∧ 8 * n ≤ maxAlloc := by
  unfold makeMarks at h
  split at h
  · cases h
  · cases h
    exact ⟨by omega, rfl, by omega⟩

theorem makeMarks_of_fits (n : Int) (h0 : 0 ≤ n) (hfit : 8 * n ≤ maxAlloc) :
    makeMarks n = some (List.replicate n.toNat 0) := by
  unfold makeMarks
  rw [if_neg (by omega)]

theorem fits_lenIsInt (b : Data) (hfit : b.Fits) : b.LenIsInt := by
  unfold Data.Fits at hfit
  unfold Data.LenIsInt
  have hmax := maxAlloc_eq
  omega

theorem Get_of_wrapped_length (b : Data)
    (h : (b.Marks.length : Int) = wrap (b.Size * b.Size)) (hfit : b.Fits) :
    b.Get = some b := by
  have hmk : makeMarks (wrap (b.Size * b.Size)) = some (List.replicate b.Marks.length 0) := by
    unfold Data.Fits at hfit
    rw [← h, makeMarks_of_fits _ (by omega) hfit]
    simp
  have hcopy := copyLoop_append b.Marks [] (List.replicate b.Marks.length 0) (by simp)
  simp only [List.length_nil, List.nil_append] at hcopy
  unfold Data.Get
  rw [hmk]
  simp only [hcopy]
  simp

theorem equalLoop_self (m : Marks) : ∀ (n i : Nat), equalLoop m m n i = true := by
  intro n
  induction n with
  | zero => intro i; rfl
  | succ k ih =>
    intro i
    simp [equalLoop, ih]

theorem Equal_self (m : Marks) : Marks.Equal m m = true := by
  unfold Marks.Equal
  simp [equalLoop_self]

theorem Reachable_length (b : Data) (h : Reachable b) :
    (b.Marks.length : Int) = wrap (b.Size * b.Size) ∧ b.Fits := by
  induction h with
  | new size b hnew =>
    unfold NewData at hnew
    split at hnew
    · cases hnew
    · rename_i m hm
      cases hnew
      obtain ⟨h0, hrep, hmax⟩ := makeMarks_length _ _ hm
      have hcast : (((wrap (size * size)).toNat : Nat) : Int) = wrap (size * size) :=
        Int.toNat_of_nonneg h0
      have hlen : ((m.length : Nat) : Int) = wrap (size * size) := by
        rw [hrep, List.length_replicate]
        exact hcast
      refine ⟨hlen, ?_⟩
      show 8 * ((m.length : Nat) : Int) ≤ maxAlloc
      rw [hlen]
      exact hmax
  | put b b1 p player ok reason _ hput ih =>
    obtain ⟨h1, h2⟩ := Put_shape b b1 p player ok reason hput
    unfold Data.Fits at ih ⊢
    rw [h1, h2]
    exact ih

/-! ## Boards on the heap -/

theorem wrapped_length_of_square (b : Data) (hsq : b.Square) (hint : b.LenIsInt) :
    (b.Marks.length : Int) = wrap (b.Size * b.Size) := by
  unfold Data.Square at hsq
  unfold Data.LenIsInt at hint
  rw [wrap_of_range _ (by omega) (by omega)]
  exact hsq

theorem read_some (h : Heap) (r : DataRef) (bd : Data) (hr : Heap.read h r = some bd) :
    r.Marks < h.length ∧ h[r.Marks]? = some bd.Marks ∧ bd.Size = r.Size := by
  unfold Heap.read at hr
  split at hr
  · cases hr
  · rename_i m hm
    cases hr
    obtain ⟨hlt, _⟩ := List.getElem?_eq_some_iff.mp hm
    exact ⟨hlt, hm, rfl⟩

theorem heapPut_of_read (h : Heap) (r : DataRef) (bd b1 : Data) (p : Position)
    (player : Player) (ok : Bool) (reason : String)
    (hr : Heap.read h r = some bd) (hput : bd.Put p player = some (b1, ok, reason)) :
    Heap.Put h r p player = some (h.set r.Marks b1.Marks, ok, reason) ∧
    Heap.read (h.set r.Marks b1.Marks) r = some b1 ∧
    (∀ r1 : DataRef, r1.Marks ≠ r.Marks →
      Heap.read (h.set r.Marks b1.Marks) r1 = Heap.read h r1) := by
  obtain ⟨hlt, _, hsize⟩ := read_some h r bd hr
  obtain ⟨hs1, _⟩ := Put_shape bd b1 p player ok reason hput
  refine ⟨?_, ?_, ?_⟩
  · simp only [Heap.Put, hr, hput]
  · unfold Heap.read
    rw [List.getElem?_set_self hlt]
    simp only
    rw [← hsize, ← hs1]
  · intro r1 hne
    unfold Heap.read
    rw [List.getElem?_set_ne (Ne.symm hne)]

theorem heap_runPuts_of_read (moves : List (Position × Player)) :
    ∀ (h : Heap) (r : DataRef) (bd b2 : Data) (tr : List (Bool × String)),
      Heap.read h r = some bd → runPuts bd moves = some (b2, tr) →
      ∃ h2 : Heap, Heap.runPuts h r moves = some (h2, tr) ∧ Heap.read h2 r = some b2 ∧
        (∀ r1 : DataRef, r1.Marks ≠ r.Marks → Heap.read h2 r1 = Heap.read h r1) := by
  induction moves with
  | nil =>
    intro h r bd b2 tr hr hrun
    simp only [runPuts] at hrun
    cases hrun
    exact ⟨h, rfl, hr, fun _ _ => rfl⟩
  | cons mv rest ih =>
    intro h r bd b2 tr hr hrun
    obtain ⟨q, other⟩ := mv
    simp only [runPuts] at hrun
    split at hrun
    · cases hrun
    · rename_i b1 ok reason hput
      split at hrun
      · cases hrun
      · rename_i b3 tr1 hrest
        cases hrun
        obtain ⟨hp1, hp2, hp3⟩ := heapPut_of_read h r bd b1 q other ok reason hr hput
        obtain ⟨h2, hq1, hq2, hq3⟩ := ih _ r b1 b2 tr1 hp2 hrest
        refine ⟨h2, ?_, hq2, ?_⟩
        · simp only [Heap.runPuts, hp1, hq1]
        · intro r1 hne
          rw [hq3 r1 hne, hp3 r1 hne]

/-! ## Construction and the inverse of the flat index -/

theorem NewData_of_bound (size : Int) (hs : 8 * (size * size) ≤ maxAlloc) :
    NewData size = some ⟨List.replicate (size * size).toNat 0, size⟩ := by
  have h0 : 0 ≤ size * size := mul_self_nonneg size
  have hmax := maxAlloc_eq
  unfold NewData
  rw [wrap_of_range _ (by omega) (by omega), makeMarks_of_fits _ h0 hs]

theorem NewPosition_of_index (s x y : Int) (hx0 : 0 ≤ x) (hx : x < s) (hy0 : 0 ≤ y)
    (hy : y < s) (hs : s * s < 2 ^ 63) : NewPosition (y * s + x) s = some ⟨x, y⟩ := by
  obtain ⟨h1, h2⟩ := index_bounds s x y hx0 hx hy0 hy
  have hs0 : 0 ≤ s := by omega
  have hsne : s ≠ 0 := by omega
  have hle : s ≤ s * s := by nlinarith
  have hmod : Int.tmod (y * s + x) s = x := by
    rw [Int.tmod_eq_emod (by omega) hs0, Int.add_comm, Int.add_mul_emod_self,
      Int.emod_eq_of_lt hx0 hx]
  have hdiv : Int.tdiv (y * s + x) s = y := by
    rw [Int.tdiv_eq_ediv (by omega) hs0, Int.add_comm, Int.add_mul_ediv_right _ _ hsne,
      Int.ediv_eq_zero_of_lt hx0 hx, Int.zero_add]
  unfold NewPosition
  rw [if_neg hsne, hmod, hdiv, wrap_of_range x (by omega) (by omega),
    wrap_of_range y (by omega) (by omega)]

/-! ## The player counter -/

theorem Inc_of_bounds (n t : Int) (hn1 : 1 ≤ n) (hnt : n ≤ t) (ht : t < 2 ^ 63) :
    PlayerCounter.Inc ⟨n, t⟩ = some ⟨n % t + 1, t⟩ ∧ 0 ≤ n % t ∧ n % t < t := by
  have ht0 : 0 < t := by omega
  have hm0 : 0 ≤ n % t := Int.emod_nonneg n (by omega)
  have hmt : n % t < t := Int.emod_lt_of_pos n ht0
  have hne : ¬ t = 0 := by omega
  have hn0 : 0 ≤ n := by omega
  have ht1 : 0 ≤ t := by omega
  refine ⟨?_, hm0, hmt⟩
  show (if t = 0 then none
    else some (⟨wrap (wrap (Int.tmod n t) + 1), t⟩ : PlayerCounter)) = some ⟨n % t + 1, t⟩
  rw [if_neg hne, Int.tmod_eq_emod hn0 ht1,
    wrap_of_range (n % t) (by omega) (by omega),
    wrap_of_range (n % t + 1) (by omega) (by omega)]

theorem emod_succ_step (i t : Int) : (i % t + 1) % t = (i + 1) % t := by
  rw [Int.emod_add_emod]

/-! ## `Put` and `IsWritable` on an arbitrary board -/

theorem IsWritable_false (b : Data) (p : Position) (r : String)
    (h : b.IsWritable p = some (false, r)) : ¬ p.InRange b.Size ∨ b.Occupied p := by
  by_cases hp : p.InRange b.Size
  · right
    unfold Data.IsWritable at h
    rw [if_neg (by unfold Position.InRange at hp; omega)] at h
    split at h
    · cases h
    · rename_i v hv
      by_cases hz : v = 0
      · rw [if_neg (by simpa using hz)] at h
        cases h
      · exact ⟨v, hv, hz⟩
  · exact Or.inl hp

theorem IsWritable_true (b : Data) (p : Position) (r : String)
    (h : b.IsWritable p = some (true, r)) :
    p.InRange b.Size ∧ Marks.index b.Marks (p.ToIndex b.Size) = some 0 ∧ r = "" := by
  by_cases hp : p.InRange b.Size
  · unfold Data.IsWritable at h
    rw [if_neg (by unfold Position.InRange at hp; omega)] at h
    split at h
    · cases h
    · rename_i v hv
      by_cases hz : v = 0
      · rw [if_neg (by simpa using hz)] at h
        cases h
        exact ⟨hp, by rw [hv, hz], rfl⟩
      · rw [if_pos hz] at h
        cases h
  · rw [IsWritable_out b p hp] at h
    cases h

theorem IsWritable_occupied (b : Data) (p : Position) (hp : p.InRange b.Size)
    (ho : b.Occupied p) : b.IsWritable p = some (false, "position is not empty") := by
  obtain ⟨v, hv, hz⟩ := ho
  unfold Data.IsWritable
  rw [if_neg (by unfold Position.InRange at hp; omega), hv]
  simp only []
  rw [if_pos hz]

theorem Put_false (b b1 : Data) (p : Position) (player : Player) (r : String)
    (h : b.Put p player = some (b1, false, r)) :
    b1 = b ∧ b.IsWritable p = some (false, r) := by
  unfold Data.Put at h
  split at h
  · cases h
  · rename_i ok0 reason0 hw
    split at h
    · cases h
      exact ⟨rfl, hw⟩
    · split at h
      · cases h
      · cases h

theorem Put_true (b b1 : Data) (p : Position) (player : Player) (r : String)
    (h : b.Put p player = some (b1, true, r)) :
    (∃ r0, b.IsWritable p = some (true, r0)) ∧ r = "" ∧ b1.Size = b.Size ∧
      Marks.assign b.Marks (p.ToIndex b.Size) player = some b1.Marks := by
  unfold Data.Put at h
  split at h
  · cases h
  · rename_i ok0 reason0 hw
    split at h
    · rename_i hok
      cases h
      simp at hok
    · rename_i hok
      have hok1 : ok0 = true := by
        cases ok0
        · simp at hok
        · rfl
      rw [hok1] at hw
      split at h
      · cases h
      · rename_i m hm
        cases h
        exact ⟨⟨reason0, hw⟩, rfl, rfl, hm⟩

theorem Put_of_IsWritable_false (b : Data) (p : Position) (player : Player) (r : String)
    (h : b.IsWritable p = some (false, r)) : b.Put p player = some (b, false, r) := by
  unfold Data.Put
  rw [h]
  rfl

theorem occupied_iff_cell (b : Data) (p : Position) (hsq : b.Square) (hint : b.LenIsInt)
    (hp : p.InRange b.Size) :
    b.Occupied p ↔ ∃ v : Player, b.Marks[(p.y * b.Size + p.x).toNat]? = some v ∧ v ≠ 0 := by
  have hidx := index_in_range b p hsq hint hp
  have hlt := cell_lt_length b p hsq hp
  unfold Position.cell at hidx hlt
  unfold Data.Occupied
  rw [hidx, List.getElem?_eq_getElem hlt]
  rfl

/-! ## A board of zero cells -/

theorem replicate_board (size : Int) (h0 : 0 ≤ size * size) :
    ((List.replicate (size * size).toNat (0 : Player)).length : Int) = size * size ∧
    ∀ i : Nat, i < (List.replicate (size * size).toNat (0 : Player)).length →
      (List.replicate (size * size).toNat (0 : Player))[i]? = some 0 := by
  constructor
  · rw [List.length_replicate]
    omega
  · intro i hi
    rw [List.length_replicate] at hi
    exact List.getElem?_replicate_of_lt hi

/-! ## Counting the empty cells -/

theorem set_same (l : Marks) : ∀ (i : Nat) (v : Player), l[i]? = some v → l.set i v = l := by
  induction l with
  | nil => intro i v _; rfl
  | cons a t ih =>
    intro i v h
    cases i with
    | zero =>
      simp at h
      simp [h]
    | succ j =>
      simp at h
      simp [ih j v h]

theorem count_set_zero (l : Marks) :
    ∀ (i : Nat) (v : Player), l[i]? = some 0 → v ≠ 0 →
      (l.set i v).count 0 + 1 = l.count 0 := by
  induction l with
  | nil => intro i v h _; simp at h
  | cons a t ih =>
    intro i v h hv
    cases i with
    | zero =>
      simp at h
      simp [h, List.count_cons, hv]
    | succ j =>
      simp at h
      have := ih j v h hv
      simp only [List.set_cons_succ, List.count_cons]
      omega

theorem Put_empties (b b1 : Data) (p : Position) (player : Player) (ok : Bool) (r : String)
    (hpl : player ≠ 0) (h : b.Put p player = some (b1, ok, r)) :
    b1.Marks.empties + (if ok then 1 else 0) = b.Marks.empties := by
  cases ok with
  | false =>
    obtain ⟨hb, _⟩ := Put_false b b1 p player r h
    rw [hb]
    rfl
  | true =>
    obtain ⟨⟨r0, hw⟩, _, _, hassign⟩ := Put_true b b1 p player r h
    obtain ⟨_, hidx, _⟩ := IsWritable_true b p r0 hw
    unfold Marks.index at hidx
    unfold Marks.assign at hassign
    split at hidx
    · cases hidx
    · split at hassign
      · cases hassign
      · have hm : b1.Marks = b.Marks.set (p.ToIndex b.Size).toNat player :=
          (Option.some.inj hassign).symm
        unfold Marks.empties
        rw [hm]
        simp only [if_true]
        exact count_set_zero b.Marks _ player hidx hpl

theorem runPuts_empties (moves : List (Position × Player)) :
    ∀ (b b2 : Data) (tr : List (Bool × String)),
      (∀ m ∈ moves, m.2 ≠ 0) → runPuts b moves = some (b2, tr) →
      b2.Marks.empties + successes tr = b.Marks.empties ∧
      b2.Size = b.Size ∧ b2.Marks.length = b.Marks.length := by
  induction moves with
  | nil =>
    intro b b2 tr _ hrun
    simp only [runPuts] at hrun
    cases hrun
    exact ⟨rfl, rfl, rfl⟩
  | cons mv rest ih =>
    intro b b2 tr hnz hrun
    obtain ⟨q, other⟩ := mv
    simp only [runPuts] at hrun
    split at hrun
    · cases hrun
    · rename_i b1 ok reason hput
      split at hrun
      · cases hrun
      · rename_i b3 tr1 hrest
        cases hrun
        have hother : other ≠ 0 := hnz (q, other) (List.mem_cons_self _ _)
        have hstep := Put_empties b b1 q other ok reason hother hput
        obtain ⟨hs1, hs2⟩ := Put_shape b b1 q other ok reason hput
        obtain ⟨he, hsz, hln⟩ := ih b1 b2 tr1
          (fun m hm => hnz m (List.mem_cons_of_mem _ hm)) hrest
        refine ⟨?_, by rw [hsz, hs1], by rw [hln, hs2]⟩
        cases ok with
        | false =>
          simp only [Bool.false_eq_true, if_false, Nat.add_zero] at hstep
          simp only [successes, List.filter_cons, Bool.false_eq_true, if_false] at he ⊢
          omega
        | true =>
          simp only [if_true] at hstep
          simp only [successes, List.filter_cons, if_true, List.length_cons] at he ⊢
          omega

theorem NewData_empties (size : Int) (b : Data) (h : NewData size = some b) :
    (b.Marks.empties : Int) = wrap (size * size) ∧
    (b.Marks.length : Int) = wrap (size * size) ∧ b.Size = size := by
  unfold NewData at h
  split at h
  · cases h
  · rename_i m hm
    cases h
    obtain ⟨h0, hrep, _⟩ := makeMarks_length _ _ hm
    have hcast : (((wrap (size * size)).toNat : Nat) : Int) = wrap (size * size) :=
      Int.toNat_of_nonneg h0
    refine ⟨?_, ?_, rfl⟩
    · show (((m.count 0 : Nat)) : Int) = wrap (size * size)
      rw [hrep, List.count_replicate_self]
      exact hcast
    · show ((m.length : Nat) : Int) = wrap (size * size)
      rw [hrep, List.length_replicate]
      exact hcast

theorem not_writable_of_no_empties (b : Data) (p : Position) (hsq : b.Square)
    (hint : b.LenIsInt) (he : b.Marks.empties = 0) :
    ∃ reason, b.IsWritable p = some (false, reason) := by
  by_cases hp : p.InRange b.Size
  · have hne : ¬ b.Marks[p.cell b.Size]? = some 0 := by
      intro hc
      have hmem : (0 : Player) ∈ b.Marks := List.getElem?_mem hc
      unfold Marks.empties at he
      exact (List.count_eq_zero.mp he) hmem
    exact ⟨_, by rw [IsWritable_in b p hsq hint hp, if_neg hne]⟩
  · exact ⟨_, IsWritable_out b p hp⟩

/-! ## From an index back to its position -/

theorem NewPosition_in_range (s i : Int) (hs : 0 < s) (hi0 : 0 ≤ i) (hi : i < s * s)
    (hint : i < 2 ^ 63) :
    NewPosition i s = some ⟨i % s, i / s⟩ ∧
    (0 ≤ i % s ∧ i % s < s ∧ 0 ≤ i / s ∧ i / s < s) ∧
    (⟨i % s, i / s⟩ : Position).ToIndex s = i := by
  have hx0 : 0 ≤ i % s := Int.emod_nonneg i (by omega)
  have hx : i % s < s := Int.emod_lt_of_pos i hs
  have hy0 : 0 ≤ i / s := Int.ediv_nonneg hi0 (by omega)
  have hy : i / s < s := Int.ediv_lt_of_lt_mul hs hi
  have hsum : i / s * s + i % s = i := by
    rw [Int.mul_comm]
    exact Int.ediv_add_emod i s
  have hys0 : 0 ≤ i / s * s := mul_nonneg hy0 (by omega)
  have hyle : i / s ≤ i / s * s := by nlinarith
  refine ⟨?_, ⟨hx0, hx, hy0, hy⟩, ?_⟩
  · unfold NewPosition
    rw [if_neg (by omega), Int.tmod_eq_emod hi0 (by omega), Int.tdiv_eq_ediv hi0 (by omega),
      wrap_of_range (i % s) (by omega) (by omega),
      wrap_of_range (i / s) (by omega) (by omega)]
  · show wrap (wrap (i / s * s) + i % s) = i
    rw [wrap_of_range (i / s * s) (by omega) (by omega), hsum]
    exact wrap_of_range i (by omega) hint

/-! ## The claims about the board -/

/-- C1. On a board with `len(Marks) = Size*Size`, for a position `p` with
`0 <= p.x < Size` and `0 <= p.y < Size` whose cell is 0 and any player value,
`Put(p, player)` returns `(true, "")`; afterwards the cell at index
`p.y*Size + p.x` holds `player`, every other cell of `Marks` is as before, and
`Size` is unchanged. -/
theorem Put_writes_empty_cell (b : Data) (p : Position) (player : Player)
    (hsq : b.Square) (hint : b.LenIsInt) (hp : p.InRange b.Size)
    (hcell : b.Marks[(p.y * b.Size + p.x).toNat]? = some 0) :
    ∃ b1 : Data, b.Put p player = some (b1, true, "") ∧
      b1.Marks[(p.y * b.Size + p.x).toNat]? = some player ∧
      (∀ i : Nat, i ≠ (p.y * b.Size + p.x).toNat → b1.Marks[i]? = b.Marks[i]?) ∧
      b1.Marks.length = b.Marks.length ∧ b1.Size = b.Size := by
  have hlt := cell_lt_length b p hsq hp
  have hput := Put_in b p player hsq hint hp
  unfold Position.cell at hput hlt
  rw [if_pos hcell] at hput
  refine ⟨_, hput, ?_, ?_, ?_, rfl⟩
  · simp only
    rw [List.getElem?_set_self hlt]
  · intro i hi
    simp only
    exact List.getElem?_set_ne (Ne.symm hi)
  · exact List.length_set _ _ _

theorem Put_writes_empty_cell_witness :
    (⟨[0, 0, 0, 7], 2⟩ : Data).Square ∧ (⟨[0, 0, 0, 7], 2⟩ : Data).LenIsInt ∧
    (⟨0, 1⟩ : Position).InRange 2 ∧
    ∃ b1 : Data, (⟨[0, 0, 0, 7], 2⟩ : Data).Put ⟨0, 1⟩ 5 = some (b1, true, "") ∧
      b1.Marks[2]? = some 5 ∧
      (∀ i : Nat, i ≠ 2 → b1.Marks[i]? = ([0, 0, 0, 7] : Marks)[i]?) ∧
      b1.Marks.length = 4 ∧ b1.Size = 2 :=
  ⟨by decide, by decide, by decide,
    Put_writes_empty_cell ⟨[0, 0, 0, 7], 2⟩ ⟨0, 1⟩ 5 (by decide) (by decide) (by decide)
      (by decide)⟩

/-- C2. On a board with `len(Marks) = Size*Size`, `Put(p, player)` always
returns, and whenever it returns `ok = false` the reason is a non-empty string
and the board (every cell of `Marks`, and `Size`) is exactly as before. -/
theorem Put_failure_keeps_board (b : Data) (p : Position) (player : Player)
    (hsq : b.Square) (hint : b.LenIsInt) :
    (∃ res, b.Put p player = some res) ∧
    ∀ (b1 : Data) (reason : String), b.Put p player = some (b1, false, reason) →
      reason ≠ "" ∧ b1 = b := by
  refine ⟨Put_total b p player hsq hint, ?_⟩
  intro b1 reason h
  by_cases hp : p.InRange b.Size
  · rw [Put_in b p player hsq hint hp] at h
    by_cases hc : b.Marks[p.cell b.Size]? = some 0
    · rw [if_pos hc] at h
      cases h
    · rw [if_neg hc] at h
      cases h
      exact ⟨by decide, rfl⟩
  · rw [Put_out b p player hp] at h
    cases h
    exact ⟨outOfRangeReason_ne_empty b.Size, rfl⟩

theorem Put_failure_keeps_board_witness :
    (⟨[0, 0, 0, 7], 2⟩ : Data).Square ∧ (⟨[0, 0, 0, 7], 2⟩ : Data).LenIsInt ∧
    (⟨[0, 0, 0, 7], 2⟩ : Data).Put ⟨1, 1⟩ 5
      = some (⟨[0, 0, 0, 7], 2⟩, false, "position is not empty") ∧
    ("position is not empty" ≠ "" ∧ (⟨[0, 0, 0, 7], 2⟩ : Data) = ⟨[0, 0, 0, 7], 2⟩) :=
  ⟨by decide, by decide, by decide,
    (Put_failure_keeps_board ⟨[0, 0, 0, 7], 2⟩ ⟨1, 1⟩ 5 (by decide) (by decide)).2
      ⟨[0, 0, 0, 7], 2⟩ "position is not empty" (by decide)⟩

/-- C3. On a board with `len(Marks) = Size*Size`, `IsWritable(p)` returns, with
`ok = true` if and only if `0 <= p.x < Size`, `0 <= p.y < Size` and the cell at
index `p.y*Size + p.x` is 0; when `ok` is true the reason is the empty string.
`IsWritable` only reads the board: its embedding has no board among its
results. -/
theorem IsWritable_iff (b : Data) (p : Position) (hsq : b.Square) (hint : b.LenIsInt) :
    ∃ (ok : Bool) (reason : String), b.IsWritable p = some (ok, reason) ∧
      (ok = true ↔
        ((0 ≤ p.x ∧ p.x < b.Size ∧ 0 ≤ p.y ∧ p.y < b.Size) ∧
          b.Marks[(p.y * b.Size + p.x).toNat]? = some 0)) ∧
      (ok = true → reason = "") := by
  by_cases hp : p.InRange b.Size
  · have hw := IsWritable_in b p hsq hint hp
    unfold Position.cell at hw
    by_cases hc : b.Marks[(p.y * b.Size + p.x).toNat]? = some 0
    · rw [if_pos hc] at hw
      exact ⟨true, "", hw, ⟨fun _ => ⟨hp, hc⟩, fun _ => rfl⟩, fun _ => rfl⟩
    · rw [if_neg hc] at hw
      refine ⟨false, _, hw, ⟨fun h => ?_, fun h => absurd h.2 hc⟩, fun h => ?_⟩
      · cases h
      · cases h
  · refine ⟨false, _, IsWritable_out b p hp, ⟨fun h => ?_, fun h => absurd h.1 hp⟩, fun h => ?_⟩
    · cases h
    · cases h

theorem IsWritable_iff_witness :
    (⟨[0, 0, 0, 7], 2⟩ : Data).Square ∧ (⟨[0, 0, 0, 7], 2⟩ : Data).LenIsInt ∧
    ∃ (ok : Bool) (reason : String),
      (⟨[0, 0, 0, 7], 2⟩ : Data).IsWritable ⟨1, 0⟩ = some (ok, reason) ∧
      (ok = true ↔
        (((0 : Int) ≤ 1 ∧ (1 : Int) < 2 ∧ (0 : Int) ≤ 0 ∧ (0 : Int) < 2) ∧
          ([0, 0, 0, 7] : Marks)[((0 : Int) * 2 + 1).toNat]? = some 0)) ∧
      (ok = true → reason = "") :=
  ⟨by decide, by decide, IsWritable_iff ⟨[0, 0, 0, 7], 2⟩ ⟨1, 0⟩ (by decide) (by decide)⟩

/-- C4. On a board of size `W` with `len(Marks) = W*W`: for a position outside
`[0,W)` on either axis, `IsWritable(p)` and `Put(p, player)` return
`(false, "position out of range, board has size WxW")`, `W` in decimal, which
is never the text "position is not empty", and `Put` leaves the board as it
was; for a position in range whose cell is non-zero they return
`(false, "position is not empty")`. -/
theorem failure_reasons (b : Data) (p : Position) (player : Player)
    (hsq : b.Square) (hint : b.LenIsInt) :
    (¬ (0 ≤ p.x ∧ p.x < b.Size ∧ 0 ≤ p.y ∧ p.y < b.Size) →
      b.IsWritable p = some (false,
        "position out of range, board has size " ++ toString b.Size ++ "x" ++ toString b.Size) ∧
      b.Put p player = some (b, false,
        "position out of range, board has size " ++ toString b.Size ++ "x" ++ toString b.Size) ∧
      b.IsWritable p ≠ some (false, "position is not empty") ∧
      ∀ b1 : Data, b.Put p player ≠ some (b1, false, "position is not empty")) ∧
    ((0 ≤ p.x ∧ p.x < b.Size ∧ 0 ≤ p.y ∧ p.y < b.Size) →
      b.Marks[(p.y * b.Size + p.x).toNat]? ≠ some 0 →
      b.IsWritable p = some (false, "position is not empty") ∧
      b.Put p player = some (b, false, "position is not empty")) := by
  constructor
  · intro hp
    have hw := IsWritable_out b p hp
    have hput := Put_out b p player hp
    refine ⟨hw, hput, ?_, ?_⟩
    · rw [hw]
      intro h
      injection h with h
      injection h with _ h
      exact outOfRangeReason_ne_notEmpty b.Size h
    · intro b1
      rw [hput]
      intro h
      injection h with h
      injection h with _ h
      injection h with _ h
      exact outOfRangeReason_ne_notEmpty b.Size h
  · intro hp hc
    have hw := IsWritable_in b p hsq hint hp
    have hput := Put_in b p player hsq hint hp
    unfold Position.cell at hw hput
    rw [if_neg hc] at hw hput
    exact ⟨hw, hput⟩

theorem failure_reasons_witness :
    (⟨[1, 0, 0, 0, 2, 0, 0, 0, 0], 3⟩ : Data).Square ∧
    (⟨[1, 0, 0, 0, 2, 0, 0, 0, 0], 3⟩ : Data).LenIsInt ∧
    ¬ ((0 : Int) ≤ 4 ∧ (4 : Int) < 3 ∧ (0 : Int) ≤ 1 ∧ (1 : Int) < 3) ∧
    (⟨[1, 0, 0, 0, 2, 0, 0, 0, 0], 3⟩ : Data).IsWritable ⟨4, 1⟩
      = some (false, "position out of range, board has size 3x3") ∧
    (⟨[1, 0, 0, 0, 2, 0, 0, 0, 0], 3⟩ : Data).Put ⟨4, 1⟩ 1
      = some (⟨[1, 0, 0, 0, 2, 0, 0, 0, 0], 3⟩, false,
          "position out of range, board has size 3x3") ∧
    ((0 : Int) ≤ 1 ∧ (1 : Int) < 3 ∧ (0 : Int) ≤ 1 ∧ (1 : Int) < 3) ∧
    ([1, 0, 0, 0, 2, 0, 0, 0, 0] : Marks)[((1 : Int) * 3 + 1).toNat]? ≠ some 0 ∧
    (⟨[1, 0, 0, 0, 2, 0, 0, 0, 0], 3⟩ : Data).IsWritable ⟨1, 1⟩
      = some (false, "position is not empty") ∧
    (⟨[1, 0, 0, 0, 2, 0, 0, 0, 0], 3⟩ : Data).Put ⟨1, 1⟩ 1
      = some (⟨[1, 0, 0, 0, 2, 0, 0, 0, 0], 3⟩, false, "position is not empty") :=
  ⟨by decide, by decide, by decide,
    ((failure_reasons ⟨[1, 0, 0, 0, 2, 0, 0, 0, 0], 3⟩ ⟨4, 1⟩ 1 (by decide) (by decide)).1
      (by decide)).1,
    ((failure_reasons ⟨[1, 0, 0, 0, 2, 0, 0, 0, 0], 3⟩ ⟨4, 1⟩ 1 (by decide) (by decide)).1
      (by decide)).2.1,
    by decide, by decide,
    (failure_reasons ⟨[1, 0, 0, 0, 2, 0, 0, 0, 0], 3⟩ ⟨1, 1⟩ 1 (by decide) (by decide)).2
      (by decide) (by decide)⟩

/-- C5. On a board with `len(Marks) = Size*Size`, after `Put(p, player)` has
succeeded with a non-zero player, `IsWritable(p)` returns
`(false, "position is not empty")`, every further `Put(p, other)` fails with
"position is not empty" and leaves the board as it is, the cell of `p` holds
`player`, and it still holds `player` after any sequence of further `Put`
calls at any positions: a mark once made is never overwritten by `Put`. -/
theorem mark_never_overwritten (b b1 : Data) (p : Position) (player : Player) (r : String)
    (hsq : b.Square) (hint : b.LenIsInt) (hpl : player ≠ 0)
    (hput : b.Put p player = some (b1, true, r)) :
    b1.IsWritable p = some (false, "position is not empty") ∧
    (∀ other : Player, b1.Put p other = some (b1, false, "position is not empty")) ∧
    b1.Marks[(p.y * b.Size + p.x).toNat]? = some player ∧
    (∀ moves : List (Position × Player), ∃ (b2 : Data) (tr : List (Bool × String)),
      runPuts b1 moves = some (b2, tr) ∧
      b2.Marks[(p.y * b.Size + p.x).toNat]? = some player) := by
  obtain ⟨hsq1, hint1⟩ := Put_square b b1 p player true r hsq hint hput
  obtain ⟨hsize, _⟩ := Put_shape b b1 p player true r hput
  have hp : p.InRange b.Size := by
    by_contra hn
    rw [Put_out b p player hn] at hput
    cases hput
  have hlt := cell_lt_length b p hsq hp
  have hcell : b1.Marks[p.cell b.Size]? = some player := by
    rw [Put_in b p player hsq hint hp] at hput
    by_cases hc : b.Marks[p.cell b.Size]? = some 0
    · rw [if_pos hc] at hput
      cases hput
      simp only
      rw [List.getElem?_set_self hlt]
    · rw [if_neg hc] at hput
      cases hput
  have hp1 : p.InRange b1.Size := by rw [hsize]; exact hp
  have hne : ¬ b1.Marks[p.cell b1.Size]? = some 0 := by
    rw [hsize, hcell]
    intro h
    exact hpl (Option.some.inj h)
  refine ⟨?_, ?_, hcell, ?_⟩
  · rw [IsWritable_in b1 p hsq1 hint1 hp1, if_neg hne]
  · intro other
    rw [Put_in b1 p other hsq1 hint1 hp1, if_neg hne]
  · intro moves
    exact runPuts_keeps_marked moves b1 hsq1 hint1 _ player hpl hcell

theorem mark_never_overwritten_witness :
    (⟨[1, 0, 0, 0, 0, 0, 0, 0, 0], 3⟩ : Data).Square ∧
    (⟨[1, 0, 0, 0, 0, 0, 0, 0, 0], 3⟩ : Data).LenIsInt ∧
    (⟨[1, 0, 0, 0, 0, 0, 0, 0, 0], 3⟩ : Data).Put ⟨1, 1⟩ 2
      = some (⟨[1, 0, 0, 0, 2, 0, 0, 0, 0], 3⟩, true, "") ∧
    (⟨[1, 0, 0, 0, 2, 0, 0, 0, 0], 3⟩ : Data).IsWritable ⟨1, 1⟩
      = some (false, "position is not empty") ∧
    (∀ other : Player, (⟨[1, 0, 0, 0, 2, 0, 0, 0, 0], 3⟩ : Data).Put ⟨1, 1⟩ other
      = some (⟨[1, 0, 0, 0, 2, 0, 0, 0, 0], 3⟩, false, "position is not empty")) :=
  ⟨by decide, by decide, by decide,
    (mark_never_overwritten ⟨[1, 0, 0, 0, 0, 0, 0, 0, 0], 3⟩ ⟨[1, 0, 0, 0, 2, 0, 0, 0, 0], 3⟩
      ⟨1, 1⟩ 2 "" (by decide) (by decide) (by decide) (by decide)).1,
    (mark_never_overwritten ⟨[1, 0, 0, 0, 0, 0, 0, 0, 0], 3⟩ ⟨[1, 0, 0, 0, 2, 0, 0, 0, 0], 3⟩
      ⟨1, 1⟩ 2 "" (by decide) (by decide) (by decide) (by decide)).2.1⟩

/-- C6. For every board reachable from `NewData(size)` by any sequence of `Put`
calls, `Get()` returns a `Data` whose `Size` equals the board's `Size` and
whose `Marks` has the same length and the same value at every index as the
board's `Marks`; `Marks.Equal` between them is true. -/
theorem Get_copies_reachable (b : Data) (hr : Reachable b) :
    ∃ c : Data, b.Get = some c ∧ c.Size = b.Size ∧
      c.Marks.length = b.Marks.length ∧
      (∀ i : Nat, c.Marks[i]? = b.Marks[i]?) ∧
      Marks.Equal b.Marks c.Marks = true ∧ Marks.Equal c.Marks b.Marks = true := by
  obtain ⟨hlen, hfit⟩ := Reachable_length b hr
  refine ⟨b, Get_of_wrapped_length b hlen hfit, rfl, rfl, fun _ => rfl, ?_, ?_⟩
  · exact Equal_self b.Marks
  · exact Equal_self b.Marks

theorem Get_copies_reachable_witness :
    Reachable ⟨[0, 0, 0, 7], 2⟩ ∧
    ∃ c : Data, (⟨[0, 0, 0, 7], 2⟩ : Data).Get = some c ∧ c.Size = 2 ∧
      c.Marks.length = ([0, 0, 0, 7] : Marks).length ∧
      (∀ i : Nat, c.Marks[i]? = ([0, 0, 0, 7] : Marks)[i]?) ∧
      Marks.Equal [0, 0, 0, 7] c.Marks = true ∧ Marks.Equal c.Marks [0, 0, 0, 7] = true :=
  ⟨Reachable.put ⟨[0, 0, 0, 0], 2⟩ ⟨[0, 0, 0, 7], 2⟩ ⟨1, 1⟩ 7 true ""
      (Reachable.new 2 ⟨[0, 0, 0, 0], 2⟩ (by decide)) (by decide),
    Get_copies_reachable ⟨[0, 0, 0, 7], 2⟩
      (Reachable.put ⟨[0, 0, 0, 0], 2⟩ ⟨[0, 0, 0, 7], 2⟩ ⟨1, 1⟩ 7 true ""
        (Reachable.new 2 ⟨[0, 0, 0, 0], 2⟩ (by decide)) (by decide))⟩

/-- C7. Let `b` be a board with `len(Marks) = Size*Size`, held in an array
`make` can have allocated, and `c = b.Get()`.
After any sequence of `Put` calls on `c`, the cells of `b` are unchanged, and
every subsequent sequence of `b.Put` calls returns the same pairs
`(ok, reason)` and leaves `b` with the same cells as it would have, had `c`
never been mutated. -/
theorem Get_copy_is_independent (h : Heap) (b : DataRef) (bd : Data)
    (hread : Heap.read h b = some bd) (hsq : bd.Square) (hfit : bd.Fits) :
    ∃ (h1 : Heap) (c : DataRef), Heap.Get h b = some (h1, c) ∧
      Heap.read h1 b = some bd ∧ Heap.read h1 c = some bd ∧
      ∀ moves : List (Position × Player), ∃ (h2 : Heap) (tr : List (Bool × String)),
        Heap.runPuts h1 c moves = some (h2, tr) ∧
        Heap.read h2 b = some bd ∧
        ∀ later : List (Position × Player),
          ∃ (h3 h4 : Heap) (res : List (Bool × String)) (after : Data),
            Heap.runPuts h2 b later = some (h3, res) ∧
            Heap.runPuts h1 b later = some (h4, res) ∧
            Heap.read h3 b = some after ∧ Heap.read h4 b = some after := by
  obtain ⟨hlt, hget, hsize⟩ := read_some h b bd hread
  have hint : bd.LenIsInt := fits_lenIsInt bd hfit
  have hcopy : bd.Get = some bd :=
    Get_of_wrapped_length bd (wrapped_length_of_square bd hsq hint) hfit
  have hb1 : Heap.read (h ++ [bd.Marks]) b = some bd := by
    unfold Heap.read
    rw [List.getElem?_append_left hlt, hget]
    simp only
    rw [← hsize]
  have hc1 : Heap.read (h ++ [bd.Marks]) ⟨h.length, bd.Size⟩ = some bd := by
    unfold Heap.read
    simp
  have hne : b.Marks ≠ (⟨h.length, bd.Size⟩ : DataRef).Marks := by
    simp only
    omega
  refine ⟨h ++ [bd.Marks], ⟨h.length, bd.Size⟩, ?_, hb1, hc1, ?_⟩
  · simp only [Heap.Get, hread, hcopy]
  · intro moves
    obtain ⟨cd, tr, hrun, _, _⟩ := runPuts_total moves bd hsq hint
    obtain ⟨h2, hr1, _, hr3⟩ := heap_runPuts_of_read moves _ _ bd cd tr hc1 hrun
    have hb2 : Heap.read h2 b = some bd := by rw [hr3 b hne, hb1]
    refine ⟨h2, tr, hr1, hb2, ?_⟩
    intro later
    obtain ⟨after, res, hlater, _, _⟩ := runPuts_total later bd hsq hint
    obtain ⟨h3, hs1, hs2, _⟩ := heap_runPuts_of_read later h2 b bd after res hb2 hlater
    obtain ⟨h4, ht1, ht2, _⟩ := heap_runPuts_of_read later _ b bd after res hb1 hlater
    exact ⟨h3, h4, res, after, hs1, ht1, hs2, ht2⟩

theorem Get_copy_is_independent_witness :
    Heap.read [[0, 0, 0, 7]] ⟨0, 2⟩ = some ⟨[0, 0, 0, 7], 2⟩ ∧
    (⟨[0, 0, 0, 7], 2⟩ : Data).Square ∧ (⟨[0, 0, 0, 7], 2⟩ : Data).Fits ∧
    ∃ (h1 : Heap) (c : DataRef), Heap.Get [[0, 0, 0, 7]] ⟨0, 2⟩ = some (h1, c) ∧
      Heap.read h1 ⟨0, 2⟩ = some ⟨[0, 0, 0, 7], 2⟩ ∧
      Heap.read h1 c = some ⟨[0, 0, 0, 7], 2⟩ ∧
      ∀ moves : List (Position × Player), ∃ (h2 : Heap) (tr : List (Bool × String)),
        Heap.runPuts h1 c moves = some (h2, tr) ∧
        Heap.read h2 ⟨0, 2⟩ = some ⟨[0, 0, 0, 7], 2⟩ ∧
        ∀ later : List (Position × Player),
          ∃ (h3 h4 : Heap) (res : List (Bool × String)) (after : Data),
            Heap.runPuts h2 ⟨0, 2⟩ later = some (h3, res) ∧
            Heap.runPuts h1 ⟨0, 2⟩ later = some (h4, res) ∧
            Heap.read h3 ⟨0, 2⟩ = some after ∧ Heap.read h4 ⟨0, 2⟩ = some after :=
  ⟨by decide, by decide, by decide,
    Get_copy_is_independent [[0, 0, 0, 7]] ⟨0, 2⟩ ⟨[0, 0, 0, 7], 2⟩ (by decide) (by decide)
      (by decide)⟩


/-- C8, as the code has it. For every size `>= 0` whose `size*size` cells
`make` accepts, `8*size*size <= maxAlloc = 2^48` (that is,
`size <= 5931641`), `NewData(size)` returns a `Data` with
`Size = size` and `Marks` of length `size*size` in which every cell is 0, and
`IsWritable(p)` returns `(true, "")` for every position `p` with
`0 <= p.x < size` and `0 <= p.y < size`. -/
theorem NewData_empty_board (size : Int) (hsize : 0 ≤ size)
    (hs : 8 * (size * size) ≤ maxAlloc) :
    ∃ b : Data, NewData size = some b ∧ b.Size = size ∧
      (b.Marks.length : Int) = size * size ∧
      (∀ i : Nat, i < b.Marks.length → b.Marks[i]? = some 0) ∧
      ∀ p : Position, 0 ≤ p.x ∧ p.x < size ∧ 0 ≤ p.y ∧ p.y < size →
        b.IsWritable p = some (true, "") := by
  have h0 : 0 ≤ size * size := mul_nonneg hsize hsize
  have hlen : ((List.replicate (size * size).toNat (0 : Player)).length : Int) = size * size := by
    rw [List.length_replicate]
    omega
  have hcells : ∀ i : Nat, i < (List.replicate (size * size).toNat (0 : Player)).length →
      (List.replicate (size * size).toNat (0 : Player))[i]? = some 0 := by
    intro i hi
    rw [List.length_replicate] at hi
    exact List.getElem?_replicate_of_lt hi
  refine ⟨_, NewData_of_bound size hs, rfl, hlen, hcells, ?_⟩
  intro p hp
  have hsq : (⟨List.replicate (size * size).toNat 0, size⟩ : Data).Square := hlen
  have hint : (⟨List.replicate (size * size).toNat 0, size⟩ : Data).LenIsInt := by
    have hmax := maxAlloc_eq
    unfold Data.LenIsInt
    rw [hlen]
    omega
  have hw := IsWritable_in _ p hsq hint hp
  rw [if_pos (hcells _ (cell_lt_length _ p hsq hp))] at hw
  exact hw

theorem NewData_empty_board_witness :
    (0 : Int) ≤ 3 ∧ 8 * ((3 : Int) * 3) ≤ maxAlloc ∧
    ∃ b : Data, NewData 3 = some b ∧ b.Size = 3 ∧
      (b.Marks.length : Int) = 3 * 3 ∧
      (∀ i : Nat, i < b.Marks.length → b.Marks[i]? = some 0) ∧
      ∀ p : Position, 0 ≤ p.x ∧ p.x < 3 ∧ 0 ≤ p.y ∧ p.y < 3 →
        b.IsWritable p = some (true, "") :=
  ⟨by decide, by decide, NewData_empty_board 3 (by decide) (by decide)⟩

/-- C8, as stated, fails at the size `2^32`: the product `size*size` wraps to 0,
so `NewData` returns a board of size `2^32` with no cell at all, whose length
is not `2^32 * 2^32`, and `IsWritable((0,0))` faults on the empty slice instead
of returning true.  At the size 3037000500 the product wraps to a negative
number and `make` faults, so `NewData` does not return; at the size 5931642
the cells would take more than `maxAlloc` bytes and `make` faults as well. -/
theorem NewData_wraps_counterexample :
    (0 : Int) ≤ 4294967296 ∧
    NewData 4294967296 = some ⟨[], 4294967296⟩ ∧
    ((([] : Marks).length : Int) ≠ 4294967296 * 4294967296) ∧
    ((0 : Int) ≤ 0 ∧ (0 : Int) < 4294967296) ∧
    (⟨[], 4294967296⟩ : Data).IsWritable ⟨0, 0⟩ = none ∧
    (⟨[], 4294967296⟩ : Data).IsWritable ⟨0, 0⟩ ≠ some (true, "") ∧
    NewData 3037000500 = none ∧
    ((0 : Int) ≤ 5931642 ∧ NewData 5931642 = none) := by
  decide

/-- C9, as the code has it. For every board size `s > 0` with `s*s < 2^63` and
all positions `p`, `q` with coordinates in `[0, s)`: `p.ToIndex(s) = y*s + x`,
`NewPosition(p.ToIndex(s), s) = p`, and `p.ToIndex(s) = q.ToIndex(s)` only if
`p = q`. -/
theorem ToIndex_NewPosition_roundtrip (s : Int) (p q : Position) (hs : 0 < s)
    (hb : s * s < 2 ^ 63) (hp : 0 ≤ p.x ∧ p.x < s ∧ 0 ≤ p.y ∧ p.y < s)
    (hq : 0 ≤ q.x ∧ q.x < s ∧ 0 ≤ q.y ∧ q.y < s) :
    p.ToIndex s = p.y * s + p.x ∧
    NewPosition (p.ToIndex s) s = some p ∧
    (p.ToIndex s = q.ToIndex s → p = q) := by
  have hne : s ≠ 0 := by omega
  have hpi := ToIndex_exact p s hp hb
  have hqi := ToIndex_exact q s hq hb
  have hpn : NewPosition (p.ToIndex s) s = some p := by
    rw [hpi]
    exact NewPosition_of_index s p.x p.y hp.1 hp.2.1 hp.2.2.1 hp.2.2.2 hb
  have hqn : NewPosition (q.ToIndex s) s = some q := by
    rw [hqi]
    exact NewPosition_of_index s q.x q.y hq.1 hq.2.1 hq.2.2.1 hq.2.2.2 hb
  refine ⟨hpi, hpn, ?_⟩
  intro heq
  rw [heq, hqn] at hpn
  exact (Option.some.inj hpn).symm

theorem ToIndex_NewPosition_roundtrip_witness :
    (0 : Int) < 3 ∧ (3 : Int) * 3 < 2 ^ 63 ∧
    ((0 : Int) ≤ 2 ∧ (2 : Int) < 3 ∧ (0 : Int) ≤ 1 ∧ (1 : Int) < 3) ∧
    ((0 : Int) ≤ 1 ∧ (1 : Int) < 3 ∧ (0 : Int) ≤ 2 ∧ (2 : Int) < 3) ∧
    (⟨2, 1⟩ : Position).ToIndex 3 = 1 * 3 + 2 ∧
    NewPosition ((⟨2, 1⟩ : Position).ToIndex 3) 3 = some ⟨2, 1⟩ ∧
    ((⟨2, 1⟩ : Position).ToIndex 3 = (⟨1, 2⟩ : Position).ToIndex 3 →
      (⟨2, 1⟩ : Position) = ⟨1, 2⟩) :=
  ⟨by decide, by decide, by decide, by decide,
    ToIndex_NewPosition_roundtrip 3 ⟨2, 1⟩ ⟨1, 2⟩ (by decide) (by decide) (by decide)
      (by decide)⟩

/-- C9, as stated, fails for large sizes. At `s = 2^32` the in-range position
`(0, 2^31)` has `y*s + x = 2^63`, which wraps: `ToIndex` returns `-2^63`, and
`NewPosition` of that index is `(0, -2^31)`, not the position.  At `s = 2^33`
the in-range positions `(0, 0)` and `(0, 2^31)` have the same index 0. -/
theorem ToIndex_wraps_counterexample :
    (0 : Int) < 4294967296 ∧
    ((0 : Int) ≤ 0 ∧ (0 : Int) < 4294967296 ∧
      (0 : Int) ≤ 2147483648 ∧ (2147483648 : Int) < 4294967296) ∧
    (⟨0, 2147483648⟩ : Position).ToIndex 4294967296 = -9223372036854775808 ∧
    (⟨0, 2147483648⟩ : Position).ToIndex 4294967296 ≠ 2147483648 * 4294967296 + 0 ∧
    NewPosition ((⟨0, 2147483648⟩ : Position).ToIndex 4294967296) 4294967296
      = some ⟨0, -2147483648⟩ ∧
    NewPosition ((⟨0, 2147483648⟩ : Position).ToIndex 4294967296) 4294967296
      ≠ some ⟨0, 2147483648⟩ ∧
    ((0 : Int) ≤ 2147483648 ∧ (2147483648 : Int) < 8589934592) ∧
    (⟨0, 0⟩ : Position).ToIndex 8589934592 = (⟨0, 2147483648⟩ : Position).ToIndex 8589934592 ∧
    (⟨0, 0⟩ : Position) ≠ ⟨0, 2147483648⟩ := by
  decide

/-- C10, as the code has it. For every size `s` with `s*s < 2^63` and every
position `p` with coordinates in `[0, s)`, `0 <= p.ToIndex(s) < s*s`.  On a
board with `len(Marks) = Size*Size` the index that `IsWritable` and `Put` use
for an in-range position lies in `[0, len(Marks))`, and for any position
argument whatsoever both calls return without an index fault. -/
theorem index_never_out_of_bounds :
    (∀ (s : Int) (p : Position), s * s < 2 ^ 63 →
      (0 ≤ p.x ∧ p.x < s ∧ 0 ≤ p.y ∧ p.y < s) →
      0 ≤ p.ToIndex s ∧ p.ToIndex s < s * s) ∧
    (∀ (b : Data) (p : Position) (player : Player), b.Square → b.LenIsInt →
      ((0 ≤ p.x ∧ p.x < b.Size ∧ 0 ≤ p.y ∧ p.y < b.Size) →
        0 ≤ p.ToIndex b.Size ∧ p.ToIndex b.Size < (b.Marks.length : Int)) ∧
      (∃ res, b.IsWritable p = some res) ∧ (∃ res, b.Put p player = some res)) := by
  have key : ∀ (s : Int) (p : Position), s * s < 2 ^ 63 → p.InRange s →
      0 ≤ p.ToIndex s ∧ p.ToIndex s < s * s := by
    intro s p hs hp
    rw [ToIndex_exact p s hp hs]
    obtain ⟨h1, h2⟩ := index_bounds s p.x p.y hp.1 hp.2.1 hp.2.2.1 hp.2.2.2
    have hx0 : 0 ≤ p.x := hp.1
    exact ⟨by omega, h2⟩
  refine ⟨key, ?_⟩
  intro b p player hsq hint
  refine ⟨?_, ?_, Put_total b p player hsq hint⟩
  · intro hp
    have h := key b.Size p (square_bound b hsq hint) hp
    unfold Data.Square at hsq
    rw [hsq]
    exact h
  · by_cases hp : p.InRange b.Size
    · exact ⟨_, IsWritable_in b p hsq hint hp⟩
    · exact ⟨_, IsWritable_out b p hp⟩

theorem index_never_out_of_bounds_witness :
    ((3 : Int) * 3 < 2 ^ 63 ∧
      ((0 : Int) ≤ 2 ∧ (2 : Int) < 3 ∧ (0 : Int) ≤ 2 ∧ (2 : Int) < 3) ∧
      0 ≤ (⟨2, 2⟩ : Position).ToIndex 3 ∧ (⟨2, 2⟩ : Position).ToIndex 3 < 3 * 3) ∧
    ((⟨[1, 0, 0, 0, 2, 0, 0, 0, 0], 3⟩ : Data).Square ∧
      (⟨[1, 0, 0, 0, 2, 0, 0, 0, 0], 3⟩ : Data).LenIsInt ∧
      (∃ res, (⟨[1, 0, 0, 0, 2, 0, 0, 0, 0], 3⟩ : Data).IsWritable ⟨4, 1⟩ = some res) ∧
      (∃ res, (⟨[1, 0, 0, 0, 2, 0, 0, 0, 0], 3⟩ : Data).Put ⟨4, 1⟩ 1 = some res)) :=
  ⟨⟨by decide, by decide,
      index_never_out_of_bounds.1 3 ⟨2, 2⟩ (by decide) (by decide)⟩,
    ⟨by decide, by decide,
      (index_never_out_of_bounds.2 ⟨[1, 0, 0, 0, 2, 0, 0, 0, 0], 3⟩ ⟨4, 1⟩ 1 (by decide)
        (by decide)).2⟩⟩

/-- C10, as stated, fails at the size `2^32`: the position `(0, 2^31)` has both
coordinates in `[0, 2^32)`, and its index `2^31 * 2^32` wraps to `-2^63`, which
is negative. -/
theorem ToIndex_bound_counterexample :
    ((0 : Int) ≤ 0 ∧ (0 : Int) < 4294967296 ∧
      (0 : Int) ≤ 2147483648 ∧ (2147483648 : Int) < 4294967296) ∧
    ¬ (0 ≤ (⟨0, 2147483648⟩ : Position).ToIndex 4294967296 ∧
        (⟨0, 2147483648⟩ : Position).ToIndex 4294967296 < 4294967296 * 4294967296) := by
  decide

/-! ## The claims about the game -/

/-- C11. For every `Total >= 1` (a value of `int`) and every `i >= 0`, after
exactly `i` calls of `Inc()` on `PlayerCounter{Next: 1, Total}`, `Next` equals
`(i mod Total) + 1` and `Total` is as before; in particular after exactly
`Total` calls `Next` is 1 again. -/
theorem Inc_iterated (total : Int) (i : Nat) (h1 : 1 ≤ total) (hint : total < 2 ^ 63) :
    incTimes i ⟨1, total⟩ = some ⟨(i : Int) % total + 1, total⟩ ∧
    incTimes total.toNat ⟨1, total⟩ = some ⟨1, total⟩ := by
  have key : ∀ k : Nat, incTimes k ⟨1, total⟩ = some ⟨(k : Int) % total + 1, total⟩ := by
    intro k
    induction k with
    | zero =>
      have h0 : ((0 : Nat) : Int) % total = 0 := by simp
      simp only [incTimes, h0]
      rfl
    | succ k ih =>
      have hm0 : 0 ≤ (k : Int) % total := Int.emod_nonneg _ (by omega)
      have hmt : (k : Int) % total < total := Int.emod_lt_of_pos _ (by omega)
      obtain ⟨hinc, _, _⟩ := Inc_of_bounds ((k : Int) % total + 1) total (by omega) (by omega) hint
      simp only [incTimes, ih, hinc]
      rw [emod_succ_step (k : Int) total]
      simp
  refine ⟨key i, ?_⟩
  rw [key total.toNat]
  have hcast : ((total.toNat : Nat) : Int) = total := Int.toNat_of_nonneg (by omega)
  rw [hcast, Int.emod_self]
  rfl

theorem Inc_iterated_witness :
    (1 : Int) ≤ 3 ∧ (3 : Int) < 2 ^ 63 ∧
    incTimes 7 ⟨1, 3⟩ = some ⟨((7 : Nat) : Int) % 3 + 1, 3⟩ ∧
    incTimes (3 : Int).toNat ⟨1, 3⟩ = some ⟨1, 3⟩ :=
  ⟨by decide, by decide, Inc_iterated 3 7 (by decide) (by decide)⟩

/-- C12. For every `PlayerCounter` with `Total >= 1` (a value of `int`) and
`1 <= Next <= Total`, `Inc()` leaves `Total` unchanged and yields a `Next` with
`1 <= Next <= Total`; when `Next = Total` before the call, `Next = 1` after it,
otherwise `Next` is increased by exactly 1. -/
theorem Inc_keeps_range (pc : PlayerCounter) (ht : 1 ≤ pc.Total) (hint : pc.Total < 2 ^ 63)
    (hn1 : 1 ≤ pc.Next) (hnt : pc.Next ≤ pc.Total) :
    ∃ pc1 : PlayerCounter, pc.Inc = some pc1 ∧ pc1.Total = pc.Total ∧
      1 ≤ pc1.Next ∧ pc1.Next ≤ pc.Total ∧
      (pc.Next = pc.Total → pc1.Next = 1) ∧
      (pc.Next ≠ pc.Total → pc1.Next = pc.Next + 1) := by
  obtain ⟨hinc, hm0, _⟩ := Inc_of_bounds pc.Next pc.Total hn1 hnt hint
  have hmt : pc.Next % pc.Total < pc.Total :=
    Int.emod_lt_of_pos pc.Next (lt_of_lt_of_le Int.zero_lt_one ht)
  have hlo : 1 ≤ pc.Next % pc.Total + 1 := by omega
  have hhi : pc.Next % pc.Total + 1 ≤ pc.Total := by omega
  refine ⟨_, hinc, rfl, hlo, hhi, ?_, ?_⟩
  · intro he
    show pc.Next % pc.Total + 1 = 1
    rw [he, Int.emod_self]
    rfl
  · intro hne
    have hlt : pc.Next < pc.Total := by omega
    have hn0 : 0 ≤ pc.Next := by omega
    show pc.Next % pc.Total + 1 = pc.Next + 1
    rw [Int.emod_eq_of_lt hn0 hlt]

theorem Inc_keeps_range_witness :
    (1 : Int) ≤ 3 ∧ (3 : Int) < 2 ^ 63 ∧ (1 : Int) ≤ 3 ∧ (3 : Int) ≤ 3 ∧
    ∃ pc1 : PlayerCounter, PlayerCounter.Inc ⟨3, 3⟩ = some pc1 ∧ pc1.Total = 3 ∧
      1 ≤ pc1.Next ∧ pc1.Next ≤ 3 ∧
      ((3 : Int) = 3 → pc1.Next = 1) ∧
      ((3 : Int) ≠ 3 → pc1.Next = 3 + 1) :=
  ⟨by decide, by decide, by decide, by decide,
    Inc_keeps_range ⟨3, 3⟩ (by decide) (by decide) (by decide) (by decide)⟩

/-- C13. For every game state whose board has `len(Marks) = Size*Size` and
whose counter satisfies `1 <= Next <= Total` (`Total` a value of `int`), every
in-range position `p` with an empty cell and `player = Next`: `Move(p, player)`
returns no error, the cell at index `p.y*Size + p.x` holds `player` afterwards,
every other cell and the size are unchanged, and `Next` becomes
`(Next % Total) + 1` with `Total` as before. -/
theorem Move_success (g : Game) (p : Position) (player : Player)
    (hsq : g.Board.Square) (hint : g.Board.LenIsInt)
    (hn1 : 1 ≤ g.CurrentPlayer.Next) (hnt : g.CurrentPlayer.Next ≤ g.CurrentPlayer.Total)
    (htot : g.CurrentPlayer.Total < 2 ^ 63)
    (hp : 0 ≤ p.x ∧ p.x < g.Board.Size ∧ 0 ≤ p.y ∧ p.y < g.Board.Size)
    (hcell : g.Board.Marks[(p.y * g.Board.Size + p.x).toNat]? = some 0)
    (hpl : player = g.CurrentPlayer.Next) :
    ∃ g1 : Game, g.Move p player = some (g1, none) ∧
      g1.Board.Marks[(p.y * g.Board.Size + p.x).toNat]? = some player ∧
      (∀ i : Nat, i ≠ (p.y * g.Board.Size + p.x).toNat →
        g1.Board.Marks[i]? = g.Board.Marks[i]?) ∧
      g1.Board.Size = g.Board.Size ∧
      g1.CurrentPlayer.Next = g.CurrentPlayer.Next % g.CurrentPlayer.Total + 1 ∧
      g1.CurrentPlayer.Total = g.CurrentPlayer.Total ∧
      g1.Players = g.Players := by
  have hlt := cell_lt_length g.Board p hsq hp
  have hput := Put_in g.Board p player hsq hint hp
  unfold Position.cell at hput hlt
  rw [if_pos hcell] at hput
  obtain ⟨hinc, _, _⟩ :=
    Inc_of_bounds g.CurrentPlayer.Next g.CurrentPlayer.Total hn1 hnt htot
  have hmove : g.Move p player = some
      (⟨⟨g.Board.Marks.set (p.y * g.Board.Size + p.x).toNat player, g.Board.Size⟩,
        ⟨g.CurrentPlayer.Next % g.CurrentPlayer.Total + 1, g.CurrentPlayer.Total⟩,
        g.Players⟩, none) := by
    unfold Game.Move
    rw [if_neg (by simpa using hpl), hput]
    simp only [Bool.not_true, Bool.false_eq_true, if_false]
    rw [hinc]
  refine ⟨_, hmove, ?_, ?_, rfl, rfl, rfl, rfl⟩
  · simp only
    rw [List.getElem?_set_self hlt]
  · intro i hi
    simp only
    exact List.getElem?_set_ne (Ne.symm hi)

theorem Move_success_witness :
    (⟨[1, 0, 0, 0, 0, 0, 0, 0, 0], 3⟩ : Data).Square ∧
    (⟨[1, 0, 0, 0, 0, 0, 0, 0, 0], 3⟩ : Data).LenIsInt ∧
    ((1 : Int) ≤ 2 ∧ (2 : Int) ≤ 2 ∧ (2 : Int) < 2 ^ 63) ∧
    ∃ g1 : Game,
      (⟨⟨[1, 0, 0, 0, 0, 0, 0, 0, 0], 3⟩, ⟨2, 2⟩, []⟩ : Game).Move ⟨1, 1⟩ 2
        = some (g1, none) ∧
      g1.Board.Marks[4]? = some 2 ∧
      (∀ i : Nat, i ≠ 4 → g1.Board.Marks[i]? = ([1, 0, 0, 0, 0, 0, 0, 0, 0] : Marks)[i]?) ∧
      g1.Board.Size = 3 ∧
      g1.CurrentPlayer.Next = 2 % 2 + 1 ∧
      g1.CurrentPlayer.Total = 2 ∧
      g1.Players = [] :=
  ⟨by decide, by decide, by decide,
    Move_success ⟨⟨[1, 0, 0, 0, 0, 0, 0, 0, 0], 3⟩, ⟨2, 2⟩, []⟩ ⟨1, 1⟩ 2
      (by decide) (by decide) (by decide) (by decide) (by decide) (by decide) (by decide)
      (by decide)⟩

/-- C14. For every game state, position `p` and player: `Move(p, player)`
returns an error if and only if `player != PlayerCounter.Next`, or `p` is out
of range, or the cell at `p` is occupied; whenever `Move` returns an error the
whole game state, board and counter, is exactly as before the call.  On a
board with `len(Marks) = Size*Size` the occupied cell is the one at index
`p.y*Size + p.x`, and `Move` returns whenever `Total` is not 0. -/
theorem Move_error_iff (g : Game) (p : Position) (player : Player) :
    ((∃ (g1 : Game) (e : GameError), g.Move p player = some (g1, some e)) ↔
      (player ≠ g.CurrentPlayer.Next ∨
        ¬ (0 ≤ p.x ∧ p.x < g.Board.Size ∧ 0 ≤ p.y ∧ p.y < g.Board.Size) ∨
        g.Board.Occupied p)) ∧
    (∀ (g1 : Game) (e : GameError), g.Move p player = some (g1, some e) → g1 = g) ∧
    (g.Board.Square → g.Board.LenIsInt →
      ((0 ≤ p.x ∧ p.x < g.Board.Size ∧ 0 ≤ p.y ∧ p.y < g.Board.Size) →
        (g.Board.Occupied p ↔
          ∃ v : Player, g.Board.Marks[(p.y * g.Board.Size + p.x).toNat]? = some v ∧ v ≠ 0)) ∧
      (g.CurrentPlayer.Total ≠ 0 → ∃ res, g.Move p player = some res)) := by
  have herr : ∀ (g1 : Game) (e : GameError), g.Move p player = some (g1, some e) →
      g1 = g ∧ (player ≠ g.CurrentPlayer.Next ∨ ¬ p.InRange g.Board.Size ∨
        g.Board.Occupied p) := by
    intro g1 e h
    by_cases hpl : player = g.CurrentPlayer.Next
    · unfold Game.Move at h
      rw [if_neg (by simpa using hpl)] at h
      split at h
      · cases h
      · rename_i b1 ok reason hput
        split at h
        · rename_i hok
          have hok1 : ok = false := by
            cases ok
            · rfl
            · simp at hok
          rw [hok1] at hput
          obtain ⟨hb, hw⟩ := Put_false g.Board b1 p player reason hput
          cases h
          rw [hb]
          exact ⟨rfl, Or.inr (IsWritable_false g.Board p reason hw)⟩
        · split at h
          · cases h
          · cases h
    · unfold Game.Move at h
      rw [if_pos hpl] at h
      cases h
      exact ⟨rfl, Or.inl hpl⟩
  refine ⟨⟨?_, ?_⟩, fun g1 e h => (herr g1 e h).1, ?_⟩
  · rintro ⟨g1, e, h⟩
    exact (herr g1 e h).2
  · intro h
    by_cases hpl : player = g.CurrentPlayer.Next
    · have hw : ∃ r, g.Board.IsWritable p = some (false, r) := by
        rcases h with h | h | h
        · exact absurd hpl h
        · exact ⟨_, IsWritable_out g.Board p h⟩
        · by_cases hp : p.InRange g.Board.Size
          · exact ⟨_, IsWritable_occupied g.Board p hp h⟩
          · exact ⟨_, IsWritable_out g.Board p hp⟩
      obtain ⟨r, hr⟩ := hw
      refine ⟨g, GameError.board r, ?_⟩
      unfold Game.Move
      rw [if_neg (by simpa using hpl), Put_of_IsWritable_false g.Board p player r hr]
      rfl
    · refine ⟨g, GameError.wrongPlayer, ?_⟩
      unfold Game.Move
      rw [if_pos hpl]
  · intro hsq hint
    refine ⟨fun hp => occupied_iff_cell g.Board p hsq hint hp, ?_⟩
    intro htot
    by_cases hpl : player = g.CurrentPlayer.Next
    · obtain ⟨⟨b1, ok, reason⟩, hput⟩ := Put_total g.Board p player hsq hint
      unfold Game.Move
      rw [if_neg (by simpa using hpl), hput]
      cases ok with
      | false => exact ⟨_, rfl⟩
      | true =>
        simp only [Bool.not_true, Bool.false_eq_true, if_false]
        unfold PlayerCounter.Inc
        rw [if_neg htot]
        exact ⟨_, rfl⟩
    · unfold Game.Move
      rw [if_pos hpl]
      exact ⟨_, rfl⟩

theorem Move_error_iff_witness :
    (⟨[1, 0, 0, 0, 2, 0, 0, 0, 0], 3⟩ : Data).Square ∧
    (⟨[1, 0, 0, 0, 2, 0, 0, 0, 0], 3⟩ : Data).LenIsInt ∧
    ((0 : Int) ≤ 1 ∧ (1 : Int) < 3 ∧ (0 : Int) ≤ 1 ∧ (1 : Int) < 3) ∧
    (2 : Int) ≠ 0 ∧
    ((⟨[1, 0, 0, 0, 2, 0, 0, 0, 0], 3⟩ : Data).Occupied ⟨1, 1⟩ ↔
      ∃ v : Player,
        ([1, 0, 0, 0, 2, 0, 0, 0, 0] : Marks)[((1 : Int) * 3 + 1).toNat]? = some v ∧ v ≠ 0) ∧
    (∃ res, (⟨⟨[1, 0, 0, 0, 2, 0, 0, 0, 0], 3⟩, ⟨1, 2⟩, []⟩ : Game).Move ⟨1, 1⟩ 1
      = some res) ∧
    (⟨⟨[1, 0, 0, 0, 2, 0, 0, 0, 0], 3⟩, ⟨1, 2⟩, []⟩ : Game).Move ⟨1, 1⟩ 1
      = some (⟨⟨[1, 0, 0, 0, 2, 0, 0, 0, 0], 3⟩, ⟨1, 2⟩, []⟩,
          some (GameError.board "position is not empty")) ∧
    (⟨⟨[1, 0, 0, 0, 2, 0, 0, 0, 0], 3⟩, ⟨1, 2⟩, []⟩ : Game)
      = ⟨⟨[1, 0, 0, 0, 2, 0, 0, 0, 0], 3⟩, ⟨1, 2⟩, []⟩ :=
  ⟨by decide, by decide, by decide, by decide,
    ((Move_error_iff ⟨⟨[1, 0, 0, 0, 2, 0, 0, 0, 0], 3⟩, ⟨1, 2⟩, []⟩ ⟨1, 1⟩ 1).2.2
      (by decide) (by decide)).1 (by decide),
    ((Move_error_iff ⟨⟨[1, 0, 0, 0, 2, 0, 0, 0, 0], 3⟩, ⟨1, 2⟩, []⟩ ⟨1, 1⟩ 1).2.2
      (by decide) (by decide)).2 (by decide),
    by decide,
    (Move_error_iff ⟨⟨[1, 0, 0, 0, 2, 0, 0, 0, 0], 3⟩, ⟨1, 2⟩, []⟩ ⟨1, 1⟩ 1).2.1
      ⟨⟨[1, 0, 0, 0, 2, 0, 0, 0, 0], 3⟩, ⟨1, 2⟩, []⟩
      (GameError.board "position is not empty") (by decide)⟩

/-- C16. On a board with `len(Marks) = Size*Size`, for every position `p` the
pair `(ok, reason)` that `Put(p, player)` returns is, for every player value,
the pair that `IsWritable(p)` returns on the board as it was before the `Put`;
so `Put` succeeds exactly when `IsWritable` reported the position writable. -/
theorem Put_returns_IsWritable (b : Data) (p : Position) (hsq : b.Square)
    (hint : b.LenIsInt) :
    ∃ (ok : Bool) (reason : String), b.IsWritable p = some (ok, reason) ∧
      ∀ player : Player, ∃ b1 : Data, b.Put p player = some (b1, ok, reason) := by
  by_cases hp : p.InRange b.Size
  · by_cases hc : b.Marks[p.cell b.Size]? = some 0
    · refine ⟨true, "", by rw [IsWritable_in b p hsq hint hp, if_pos hc], ?_⟩
      intro player
      exact ⟨_, by rw [Put_in b p player hsq hint hp, if_pos hc]⟩
    · refine ⟨false, "position is not empty",
        by rw [IsWritable_in b p hsq hint hp, if_neg hc], ?_⟩
      intro player
      exact ⟨_, by rw [Put_in b p player hsq hint hp, if_neg hc]⟩
  · exact ⟨false, _, IsWritable_out b p hp, fun player => ⟨_, Put_out b p player hp⟩⟩

theorem Put_returns_IsWritable_witness :
    (⟨[1, 0, 0, 0, 2, 0, 0, 0, 0], 3⟩ : Data).Square ∧
    (⟨[1, 0, 0, 0, 2, 0, 0, 0, 0], 3⟩ : Data).LenIsInt ∧
    ∃ (ok : Bool) (reason : String),
      (⟨[1, 0, 0, 0, 2, 0, 0, 0, 0], 3⟩ : Data).IsWritable ⟨1, 1⟩ = some (ok, reason) ∧
      ∀ player : Player, ∃ b1 : Data,
        (⟨[1, 0, 0, 0, 2, 0, 0, 0, 0], 3⟩ : Data).Put ⟨1, 1⟩ player = some (b1, ok, reason) :=
  ⟨by decide, by decide,
    Put_returns_IsWritable ⟨[1, 0, 0, 0, 2, 0, 0, 0, 0], 3⟩ ⟨1, 1⟩ (by decide) (by decide)⟩

/-- C17, as the code has it. The predicate `len(Marks) = Size*Size` holds for
`NewData(size)` for every size `>= 0` whose `size*size` cells `make` accepts,
`8*size*size <= maxAlloc = 2^48` (that is, `size <= 5931641`), and is
preserved by every `Put`, successful or failed, and by `Get`; `Put` leaves the
size of the board as it was, and `Get` returns a copy of the same size and
leaves the board it was called on as it was.  `IsWritable` only reads the
board: its embedding has no board among its results. -/
theorem Square_is_invariant :
    (∀ size : Int, 0 ≤ size → 8 * (size * size) ≤ maxAlloc →
      ∃ b : Data, NewData size = some b ∧ b.Square ∧ b.LenIsInt ∧ b.Fits ∧ b.Size = size) ∧
    (∀ (b : Data) (p : Position) (player : Player), b.Square → b.LenIsInt →
      ∃ (b1 : Data) (ok : Bool) (reason : String), b.Put p player = some (b1, ok, reason) ∧
        b1.Square ∧ b1.LenIsInt ∧ b1.Size = b.Size ∧ (b.Fits → b1.Fits)) ∧
    (∀ (h : Heap) (r : DataRef) (b : Data), Heap.read h r = some b → b.Square → b.Fits →
      ∃ (h1 : Heap) (c : DataRef) (cd : Data), Heap.Get h r = some (h1, c) ∧
        Heap.read h1 c = some cd ∧ cd.Square ∧ cd.LenIsInt ∧ cd.Fits ∧ cd.Size = b.Size ∧
        Heap.read h1 r = some b) := by
  refine ⟨?_, ?_, ?_⟩
  · intro size h0 hs
    obtain ⟨hlen, _⟩ := replicate_board size (mul_nonneg h0 h0)
    have hfit : (⟨List.replicate (size * size).toNat 0, size⟩ : Data).Fits := by
      unfold Data.Fits
      rw [hlen]
      exact hs
    exact ⟨_, NewData_of_bound size hs, hlen, fits_lenIsInt _ hfit, hfit, rfl⟩
  · intro b p player hsq hint
    obtain ⟨⟨b1, ok, reason⟩, hput⟩ := Put_total b p player hsq hint
    obtain ⟨h1, h2⟩ := Put_square b b1 p player ok reason hsq hint hput
    obtain ⟨hs1, hs2⟩ := Put_shape b b1 p player ok reason hput
    refine ⟨b1, ok, reason, hput, h1, h2, hs1, ?_⟩
    intro hfit
    unfold Data.Fits at hfit ⊢
    rw [hs2]
    exact hfit
  · intro h r b hread hsq hfit
    obtain ⟨hlt, hget, hsize⟩ := read_some h r b hread
    have hint : b.LenIsInt := fits_lenIsInt b hfit
    have hcopy : b.Get = some b :=
      Get_of_wrapped_length b (wrapped_length_of_square b hsq hint) hfit
    refine ⟨h ++ [b.Marks], ⟨h.length, b.Size⟩, b, ?_, ?_, hsq, hint, hfit, rfl, ?_⟩
    · simp only [Heap.Get, hread, hcopy]
    · unfold Heap.read
      simp
    · unfold Heap.read
      rw [List.getElem?_append_left hlt, hget]
      simp only
      rw [← hsize]

theorem Square_is_invariant_witness :
    ((0 : Int) ≤ 3 ∧ 8 * ((3 : Int) * 3) ≤ maxAlloc ∧
      ∃ b : Data, NewData 3 = some b ∧ b.Square ∧ b.LenIsInt ∧ b.Fits ∧ b.Size = 3) ∧
    ((⟨[1, 0, 0, 0, 2, 0, 0, 0, 0], 3⟩ : Data).Square ∧
      (⟨[1, 0, 0, 0, 2, 0, 0, 0, 0], 3⟩ : Data).LenIsInt ∧
      ∃ (b1 : Data) (ok : Bool) (reason : String),
        (⟨[1, 0, 0, 0, 2, 0, 0, 0, 0], 3⟩ : Data).Put ⟨2, 2⟩ 1 = some (b1, ok, reason) ∧
        b1.Square ∧ b1.LenIsInt ∧ b1.Size = 3 ∧
        ((⟨[1, 0, 0, 0, 2, 0, 0, 0, 0], 3⟩ : Data).Fits → b1.Fits)) ∧
    (Heap.read [[1, 0, 0, 0, 2, 0, 0, 0, 0]] ⟨0, 3⟩ = some ⟨[1, 0, 0, 0, 2, 0, 0, 0, 0], 3⟩ ∧
      (⟨[1, 0, 0, 0, 2, 0, 0, 0, 0], 3⟩ : Data).Fits ∧
      ∃ (h1 : Heap) (c : DataRef) (cd : Data),
        Heap.Get [[1, 0, 0, 0, 2, 0, 0, 0, 0]] ⟨0, 3⟩ = some (h1, c) ∧
        Heap.read h1 c = some cd ∧ cd.Square ∧ cd.LenIsInt ∧ cd.Fits ∧ cd.Size = 3 ∧
        Heap.read h1 ⟨0, 3⟩ = some ⟨[1, 0, 0, 0, 2, 0, 0, 0, 0], 3⟩) :=
  ⟨⟨by decide, by decide, Square_is_invariant.1 3 (by decide) (by decide)⟩,
    ⟨by decide, by decide,
      Square_is_invariant.2.1 ⟨[1, 0, 0, 0, 2, 0, 0, 0, 0], 3⟩ ⟨2, 2⟩ 1 (by decide)
        (by decide)⟩,
    ⟨by decide, by decide,
      Square_is_invariant.2.2 [[1, 0, 0, 0, 2, 0, 0, 0, 0]] ⟨0, 3⟩
        ⟨[1, 0, 0, 0, 2, 0, 0, 0, 0], 3⟩ (by decide) (by decide) (by decide)⟩⟩

/-- C17, as stated, fails for large sizes. At the size `2^32` the product
`size*size` wraps to 0 and `NewData` returns a board of size `2^32` whose
`Marks` has length 0, which is not `2^32 * 2^32`.  At the size 3037000500 the
product wraps to a negative number, `make` faults, and there is no board for
the predicate to hold of; the same at the size 5931642, whose cells would take
more than `maxAlloc` bytes. -/
theorem NewData_not_square_counterexample :
    (0 : Int) ≤ 4294967296 ∧
    NewData 4294967296 = some ⟨[], 4294967296⟩ ∧
    ¬ (⟨[], 4294967296⟩ : Data).Square ∧
    (0 : Int) ≤ 3037000500 ∧ NewData 3037000500 = none ∧
    (0 : Int) ≤ 5931642 ∧ NewData 5931642 = none := by
  decide

/-- C18, as the code has it. For every board size `s > 0` and every index `i`
(a value of `int`) with `0 <= i < s*s`, `NewPosition(i, s)` is a position
`(x, y)` with `0 <= x < s` and `0 <= y < s`, and
`NewPosition(i, s).ToIndex(s) = i`; for `s*s < 2^63` it is the only in-range
position with the index `i`. -/
theorem NewPosition_ToIndex_roundtrip (s i : Int) (hs : 0 < s) (hi0 : 0 ≤ i)
    (hi : i < s * s) (hint : i < 2 ^ 63) :
    ∃ p : Position, NewPosition i s = some p ∧
      (0 ≤ p.x ∧ p.x < s ∧ 0 ≤ p.y ∧ p.y < s) ∧
      p.ToIndex s = i ∧
      (s * s < 2 ^ 63 → ∀ q : Position,
        (0 ≤ q.x ∧ q.x < s ∧ 0 ≤ q.y ∧ q.y < s) → q.ToIndex s = i → q = p) := by
  obtain ⟨hnew, hrange, hidx⟩ := NewPosition_in_range s i hs hi0 hi hint
  refine ⟨⟨i % s, i / s⟩, hnew, hrange, hidx, ?_⟩
  intro hb q hq hqi
  have hq1 := ToIndex_exact q s hq hb
  have hq2 := NewPosition_of_index s q.x q.y hq.1 hq.2.1 hq.2.2.1 hq.2.2.2 hb
  rw [← hq1, hqi, hnew] at hq2
  exact (Option.some.inj hq2).symm

theorem NewPosition_ToIndex_roundtrip_witness :
    (0 : Int) < 3 ∧ (0 : Int) ≤ 5 ∧ (5 : Int) < 3 * 3 ∧ (5 : Int) < 2 ^ 63 ∧
    ∃ p : Position, NewPosition 5 3 = some p ∧
      (0 ≤ p.x ∧ p.x < 3 ∧ 0 ≤ p.y ∧ p.y < 3) ∧
      p.ToIndex 3 = 5 ∧
      ((3 : Int) * 3 < 2 ^ 63 → ∀ q : Position,
        (0 ≤ q.x ∧ q.x < 3 ∧ 0 ≤ q.y ∧ q.y < 3) → q.ToIndex 3 = 5 → q = p) :=
  ⟨by decide, by decide, by decide, by decide,
    NewPosition_ToIndex_roundtrip 3 5 (by decide) (by decide) (by decide) (by decide)⟩

/-- C18, as stated, fails for large sizes: an index can belong to more than
one in-range position.  At `s = 2^33` the index 0 is the index of
`NewPosition(0, s) = (0, 0)` and also of the in-range position `(0, 2^31)`,
whose product `2^31 * 2^33` wraps to 0. -/
theorem NewPosition_not_unique_counterexample :
    (0 : Int) < 8589934592 ∧
    ((0 : Int) ≤ 0 ∧ (0 : Int) < 8589934592 * 8589934592) ∧
    NewPosition 0 8589934592 = some ⟨0, 0⟩ ∧
    ((0 : Int) ≤ 0 ∧ (0 : Int) < 8589934592 ∧
      (0 : Int) ≤ 2147483648 ∧ (2147483648 : Int) < 8589934592) ∧
    (⟨0, 2147483648⟩ : Position).ToIndex 8589934592 = 0 ∧
    (⟨0, 0⟩ : Position).ToIndex 8589934592 = 0 ∧
    (⟨0, 2147483648⟩ : Position) ≠ ⟨0, 0⟩ := by
  decide

/-- C19. On a board with `len(Marks) = Size*Size`, a successful `Put(p, player)`
with `player != 0` decreases the number of cells equal to 0 by exactly one and
a failed `Put` leaves that number unchanged.  Starting from `NewData(size)`,
any sequence of `Put` calls with non-zero players contains at most `size*size`
successful ones, and once it contains `size*size` of them `IsWritable` returns
false for every position.  For a size whose cells `make` accepts,
`8*size*size <= maxAlloc`, the board exists and every such sequence runs to
its end. -/
theorem empties_bound_successes :
    (∀ (b b1 : Data) (p : Position) (player : Player) (r : String),
      b.Square → b.LenIsInt → player ≠ 0 → b.Put p player = some (b1, true, r) →
      b1.Marks.empties + 1 = b.Marks.empties) ∧
    (∀ (b b1 : Data) (p : Position) (player : Player) (r : String),
      b.Square → b.LenIsInt → b.Put p player = some (b1, false, r) →
      b1.Marks.empties = b.Marks.empties) ∧
    (∀ (size : Int) (b0 b2 : Data) (moves : List (Position × Player))
      (tr : List (Bool × String)),
      NewData size = some b0 → (∀ m ∈ moves, m.2 ≠ 0) →
      runPuts b0 moves = some (b2, tr) →
      (successes tr : Int) ≤ size * size ∧
      ((successes tr : Int) = size * size →
        ∀ p : Position, ∃ reason : String, b2.IsWritable p = some (false, reason))) ∧
    (∀ size : Int, 8 * (size * size) ≤ maxAlloc →
      ∃ b0 : Data, NewData size = some b0 ∧
        ∀ moves : List (Position × Player), ∃ (b2 : Data) (tr : List (Bool × String)),
          runPuts b0 moves = some (b2, tr)) := by
  refine ⟨?_, ?_, ?_, ?_⟩
  · intro b b1 p player r _ _ hpl hput
    have h := Put_empties b b1 p player true r hpl hput
    simpa using h
  · intro b b1 p player r _ _ hput
    rw [(Put_false b b1 p player r hput).1]
  · intro size b0 b2 moves tr hnew hnz hrun
    obtain ⟨he0, hl0, hs0⟩ := NewData_empties size b0 hnew
    obtain ⟨he, hsz, hln⟩ := runPuts_empties moves b0 b2 tr hnz hrun
    have hsq0 : 0 ≤ size * size := mul_self_nonneg size
    have hwle : wrap (size * size) ≤ size * size := by
      unfold wrap
      omega
    have hwlt : wrap (size * size) < 2 ^ 63 := by
      unfold wrap
      omega
    constructor
    · omega
    · intro hall p
      have hw : wrap (size * size) = size * size := by omega
      have hsq : b2.Square := by
        unfold Data.Square
        rw [hln, hsz, hl0, hs0, hw]
      have hint : b2.LenIsInt := by
        unfold Data.LenIsInt
        rw [hln, hl0]
        exact hwlt
      exact not_writable_of_no_empties b2 p hsq hint (by omega)
  · intro size hs
    have hsq0 : 0 ≤ size * size := mul_self_nonneg size
    obtain ⟨hlen, _⟩ := replicate_board size hsq0
    refine ⟨_, NewData_of_bound size hs, ?_⟩
    intro moves
    have hint : (⟨List.replicate (size * size).toNat 0, size⟩ : Data).LenIsInt := by
      have hmax := maxAlloc_eq
      unfold Data.LenIsInt
      rw [hlen]
      omega
    have hsq : (⟨List.replicate (size * size).toNat 0, size⟩ : Data).Square := hlen
    obtain ⟨b2, tr, hrun, _⟩ := runPuts_total moves _ hsq hint
    exact ⟨b2, tr, hrun⟩

theorem empties_bound_successes_witness :
    (⟨[0, 0, 0, 7], 2⟩ : Data).Square ∧ (⟨[0, 0, 0, 7], 2⟩ : Data).LenIsInt ∧
    (5 : Player) ≠ 0 ∧
    (⟨[0, 0, 0, 7], 2⟩ : Data).Put ⟨0, 1⟩ 5 = some (⟨[0, 0, 5, 7], 2⟩, true, "") ∧
    Marks.empties [0, 0, 5, 7] + 1 = Marks.empties [0, 0, 0, 7] ∧
    NewData 1 = some ⟨[0], 1⟩ ∧
    runPuts ⟨[0], 1⟩ [(⟨0, 0⟩, 1), (⟨0, 0⟩, 2)]
      = some (⟨[1], 1⟩, [(true, ""), (false, "position is not empty")]) ∧
    ((successes [(true, ""), (false, "position is not empty")] : Int) ≤ 1 * 1 ∧
      ((successes [(true, ""), (false, "position is not empty")] : Int) = 1 * 1 →
        ∀ p : Position, ∃ reason : String,
          (⟨[1], 1⟩ : Data).IsWritable p = some (false, reason))) :=
  ⟨by decide, by decide, by decide, by decide,
    empties_bound_successes.1 ⟨[0, 0, 0, 7], 2⟩ ⟨[0, 0, 5, 7], 2⟩ ⟨0, 1⟩ 5 ""
      (by decide) (by decide) (by decide) (by decide),
    by decide, by decide,
    empties_bound_successes.2.2.1 1 ⟨[0], 1⟩ ⟨[1], 1⟩ [(⟨0, 0⟩, 1), (⟨0, 0⟩, 2)]
      [(true, ""), (false, "position is not empty")] (by decide) (by decide) (by decide)⟩

/-- C20. On a board with `len(Marks) = Size*Size`, for an in-range position `p`
whose cell is empty, `Put(p, 0)` returns `(true, "")`, the board after the call
is exactly the board before it, and `IsWritable(p)` still returns `(true, "")`:
`Put` does not reject the empty-mark value 0 as a player. -/
theorem Put_zero_succeeds (b : Data) (p : Position) (hsq : b.Square) (hint : b.LenIsInt)
    (hp : 0 ≤ p.x ∧ p.x < b.Size ∧ 0 ≤ p.y ∧ p.y < b.Size)
    (hcell : b.Marks[(p.y * b.Size + p.x).toNat]? = some 0) :
    b.Put p 0 = some (b, true, "") ∧ b.IsWritable p = some (true, "") := by
  have hput := Put_in b p 0 hsq hint hp
  have hw := IsWritable_in b p hsq hint hp
  unfold Position.cell at hput hw
  rw [if_pos hcell] at hput hw
  rw [set_same b.Marks _ 0 hcell] at hput
  exact ⟨hput, hw⟩

theorem Put_zero_succeeds_witness :
    (⟨[0, 0, 0, 7], 2⟩ : Data).Square ∧ (⟨[0, 0, 0, 7], 2⟩ : Data).LenIsInt ∧
    ((0 : Int) ≤ 0 ∧ (0 : Int) < 2 ∧ (0 : Int) ≤ 1 ∧ (1 : Int) < 2) ∧
    (⟨[0, 0, 0, 7], 2⟩ : Data).Put ⟨0, 1⟩ 0 = some (⟨[0, 0, 0, 7], 2⟩, true, "") ∧
    (⟨[0, 0, 0, 7], 2⟩ : Data).IsWritable ⟨0, 1⟩ = some (true, "") :=
  ⟨by decide, by decide, by decide,
    Put_zero_succeeds ⟨[0, 0, 0, 7], 2⟩ ⟨0, 1⟩ (by decide) (by decide) (by decide)
      (by decide)⟩
